import Mathlib

/-!
# System-call layer of the Pintos user-program project (`userprog/syscall.c`)

A shallow embedding of `src/src/userprog/syscall.c`.

* Every C function of the file is a Lean function of the same name (`open` is
  `sys_open`, because `open` is reserved in Lean).
* The kernel state the file touches is the record `State`; a C function that
  may end the thread instead of returning has type `K α`, a state transformer
  whose result is `Outcome.ret` (returned to its caller) or `Outcome.stop`
  (control never came back).
* Functions of other kernel files (filesystem, page directory, process
  start/wait, allocator, console) are not part of the file.  Each call to one
  of them is recorded in `State.trace`, and the value it hands back is a field
  of `Env`, so a statement quantified over `Env` holds for every behaviour of
  those collaborators.
* Pointers and `unsigned` values are 32-bit words held in `Nat`; pointer
  arithmetic is taken modulo `2^32`.  `int` values are held in `Int`, and the
  one `int` addition of the file (`total_fd + 1`) wraps to 32 bits.
-/

namespace Syscall

/-! ## Data model -/

/-- One entry of `thread.fd_entries` (`struct file_record`): the handle and the
open-file object (the non-null `struct file *`, as a number). -/
structure file_record where
  fd : Int
  cfile : Nat
deriving DecidableEq, Repr

/-- One entry of a `childlist` (`struct child_record`); `child = none` is the
NULL back-pointer. -/
structure child_record where
  id : Int
  child : Option Nat
  retVal : Int
deriving DecidableEq, Repr

/-- Calls that leave `syscall.c`, and the kernel's own accesses to user
memory, in the order they happen. -/
inductive Event where
  | checked (addr : Nat)
  | read (addr : Nat)
  | shutdown_power_off
  | printf_exit (status : Int)
  | sema_up
  | sema_down
  | file_close (file : Nat)
  | free_child (id : Int)
  | free_file (fd : Int)
  | free_unused
  | thread_exit
  | thread_yield
  | process_execute (cmd_line : Nat)
  | process_wait (pid : Int)
  | filesys_create (file : Nat) (initial_size : Nat)
  | filesys_remove (file : Nat)
  | malloc
  | filesys_open (file : Nat)
  | file_length (file : Nat)
  | file_read (file : Nat) (buffer : Nat) (length : Nat)
  | file_write (file : Nat) (buffer : Nat) (length : Nat)
  | file_seek (file : Nat) (position : Nat)
  | file_tell (file : Nat)
  | input_getc
  | putbuf (buffer : Nat) (length : Nat)
deriving DecidableEq, Repr

/-- The part of the kernel state that `syscall.c` reads or writes: fields of
the current thread `t`, the child list of `t->parent`, the lock
`filesys_mutex`, user memory, and the `eax` slot of the trap frame. -/
structure State where
  tid : Int
  parent_alive : Bool
  parent_childlist : List child_record
  parent_wait : Bool
  exefile : Nat
  childlist : List child_record
  fd_entries : List file_record
  total_fd : Int
  filesys_mutex : Bool
  mem : Nat → Nat
  eax : Nat
  trace : List Event

/-! Field updates, written by cases on the record. -/

/-- Append one event to the trace. -/
def State.push (s : State) (x : Event) : State :=
  match s with
  | ⟨a, b, c, d, e, f, g, h, i, j, k, l⟩ => ⟨a, b, c, d, e, f, g, h, i, j, k, l ++ [x]⟩

/-- Append events to the trace. -/
def State.push_all (s : State) (x : List Event) : State :=
  match s with
  | ⟨a, b, c, d, e, f, g, h, i, j, k, l⟩ => ⟨a, b, c, d, e, f, g, h, i, j, k, l ++ x⟩

/-- Update of `filesys_mutex`. -/
def State.set_mutex (s : State) (x : Bool) : State :=
  match s with
  | ⟨a, b, c, d, e, f, g, h, _, j, k, l⟩ => ⟨a, b, c, d, e, f, g, h, x, j, k, l⟩

/-- Update of `fd_entries`. -/
def State.set_fd_entries (s : State) (x : List file_record) : State :=
  match s with
  | ⟨a, b, c, d, e, f, _, h, i, j, k, l⟩ => ⟨a, b, c, d, e, f, x, h, i, j, k, l⟩

/-- Update of `total_fd`. -/
def State.set_total_fd (s : State) (x : Int) : State :=
  match s with
  | ⟨a, b, c, d, e, f, g, _, i, j, k, l⟩ => ⟨a, b, c, d, e, f, g, x, i, j, k, l⟩

/-- Update of `childlist`. -/
def State.set_childlist (s : State) (x : List child_record) : State :=
  match s with
  | ⟨a, b, c, d, e, _, g, h, i, j, k, l⟩ => ⟨a, b, c, d, e, x, g, h, i, j, k, l⟩

/-- Update of the parent `childlist`. -/
def State.set_parent_childlist (s : State) (x : List child_record) : State :=
  match s with
  | ⟨a, b, _, d, e, f, g, h, i, j, k, l⟩ => ⟨a, b, x, d, e, f, g, h, i, j, k, l⟩

/-- Update of user memory. -/
def State.set_mem (s : State) (x : Nat → Nat) : State :=
  match s with
  | ⟨a, b, c, d, e, f, g, h, i, _, k, l⟩ => ⟨a, b, c, d, e, f, g, h, i, x, k, l⟩

/-- Update of `f->eax`. -/
def State.set_eax (s : State) (x : Nat) : State :=
  match s with
  | ⟨a, b, c, d, e, f, g, h, i, j, _, l⟩ => ⟨a, b, c, d, e, f, g, h, i, j, x, l⟩

/-- What the collaborators answer during one system call, and the constant
`PHYS_BASE` of `threads/vaddr.h`, which is not part of the source file. -/
structure Env where
  phys_base : Nat
  pagedir_get_page : Nat → Bool
  process_execute : Nat → Int
  child_status : Int
  process_wait : Int → Int
  filesys_create : Nat → Nat → Bool
  filesys_remove : Nat → Bool
  malloc : Bool
  filesys_open : Nat → Option Nat
  file_length : Nat → Int
  file_read : Nat → Nat → Nat → List Nat
  file_write : Nat → Nat → Nat → Int
  file_tell : Nat → Int

/-- Why control did not return: `exit (status)` ran to its `thread_exit ()`,
`thread_exit ()` was called directly, the machine was powered off, or a loop
of the model used up its iteration budget (shown below not to happen). -/
inductive Stop where
  | exit (status : Int)
  | thread_exit
  | power_off
  | out_of_fuel
deriving DecidableEq, Repr

/-- Result of running a C function on a state. -/
inductive Outcome (α : Type) where
  | ret (a : α) (s : State)
  | stop (r : Stop) (s : State)

/-- The state in which a run ended. -/
def Outcome.state {α : Type} : Outcome α → State
  | .ret _ s => s
  | .stop _ s => s

/-- The reason a run stopped, `none` when the function returned. -/
def Outcome.stopped {α : Type} : Outcome α → Option Stop
  | .ret _ _ => none
  | .stop r _ => some r

/-- The returned value, `none` when the function did not return. -/
def Outcome.value {α : Type} : Outcome α → Option α
  | .ret a _ => some a
  | .stop _ _ => none

/-- A C function body: a state transformer that returns or stops. -/
def K (α : Type) : Type := State → Outcome α

/-- Continue with `f` after a run that returned; a stopped run stays stopped. -/
def Outcome.and_then {α β : Type} (o : Outcome α) (f : α → State → Outcome β) : Outcome β :=
  match o with
  | .ret a s1 => f a s1
  | .stop r s1 => .stop r s1

/-- Sequencing: the rest of the body runs only if the first part returned. -/
def K.bind {α β : Type} (m : K α) (f : α → K β) : K β := fun s => (m s).and_then f

/-- A body that returns `a` at once. -/
def K.pure {α : Type} (a : α) : K α := fun s => .ret a s

instance : Monad K where
  pure := K.pure
  bind := K.bind

/-- Record an event at the end of the trace. -/
def emit (e : Event) : K Unit := fun s => .ret () (s.push e)

/-- Read the current state. -/
def get : K State := fun s => .ret s s

/-- Replace the current state. -/
def set (s : State) : K Unit := fun _ => .ret () s

/-! ## 32-bit words -/

/-- Size of the 32-bit word range. -/
def WORD : Nat := 2 ^ 32

/-- The `int` with a given 32-bit pattern (two's complement). -/
def to_int (w : Nat) : Int :=
  if w % WORD < 2 ^ 31 then (w % WORD : Nat) else (w % WORD : Nat) - (WORD : Int)

/-- The 32-bit pattern of an `int` (conversion to `unsigned` / `uint32_t`). -/
def to_unsigned (i : Int) : Nat := (i % (WORD : Int)).toNat

/-- 32-bit wrap-around of an `int` result. -/
def wrap_int (i : Int) : Int := to_int (to_unsigned i)

/-! ## User-memory validator (lines 350-370) -/

/-- `USER_VADDR_BOUND` (line 14). -/
def USER_VADDR_BOUND : Nat := 0x08048000

/-- Modelled from the spec: `is_user_vaddr` of `threads/vaddr.h` is not in the
source file; the address lies below the kernel/user split `PHYS_BASE`. -/
def is_user_vaddr (E : Env) (a : Nat) : Bool := decide (a < E.phys_base)

/-- The condition tested by `valid_ptr` (lines 351-352). -/
def valid_addr (E : Env) (a : Nat) : Bool :=
  is_user_vaddr E a && decide (USER_VADDR_BOUND < a) && E.pagedir_get_page a

/-- Lock acquisition returns with the lock held by the caller. -/
def lock_acquire : K Unit := fun s => .ret () (s.set_mutex true)

/-- Lock release. -/
def lock_release : K Unit := fun s => .ret () (s.set_mutex false)

/-- The call `thread_exit ()`: it does not return. -/
def thread_exit {α : Type} : K α := fun s =>
  .stop .thread_exit (s.push .thread_exit)

/-! ## `exit` (lines 116-154) -/

/-- Lines 121-130: walk the parent's child list up to the first record whose
`id` is the thread's `tid`, store the status there and clear `child`. -/
def exit_record (tid status : Int) : List child_record → List child_record
  | [] => []
  | cr :: rest =>
    if cr.id = tid then { cr with retVal := status, child := none } :: rest
    else cr :: exit_record tid status rest

/-- Lines 140-144: pop and free child records until the list is empty; the
first argument is the list as it stands in the state. -/
def exit_free_children : List child_record → State → State
  | [], s => s
  | cr :: rest, s =>
    exit_free_children rest ((s.set_childlist rest).push (.free_child cr.id))

/-- Lines 147-152: pop each file record, close its file and free it, until
the list is empty; the first argument is the list as it stands in the state. -/
def exit_close_files : List file_record → State → State
  | [], s => s
  | fr :: rest, s =>
    exit_close_files rest
      (((s.set_fd_entries rest).push (.file_close fr.cfile)).push (.free_file fr.fd))

/-- The function `exit` (lines 116-154). -/
def exit {α : Type} (status : Int) : K α := fun s =>
  let s1 : State := if s.parent_alive then
      s.set_parent_childlist (exit_record s.tid status s.parent_childlist)
    else s
  let s2 : State := s1.push (.printf_exit status)
  let s3 : State := if s2.parent_wait then s2.push .sema_up else s2
  let s4 : State := s3.push (.file_close s3.exefile)
  let s5 : State := exit_free_children s4.childlist s4
  let s6 : State := exit_close_files s5.fd_entries s5
  .stop (.exit status) (s6.push .thread_exit)

/-- The function `valid_ptr` (lines 350-355). -/
def valid_ptr (E : Env) (user_ptr : Nat) : K Unit :=
  if valid_addr E user_ptr then emit (.checked user_ptr) else exit (-1)

/-- The loop of `valid_buf` (line 359) with `n` iterations left, at index `i`.
The counter is an `int` compared with the `unsigned` size, so both the test
`i < size` and the address `&buf[i]` depend on its 32-bit pattern only. -/
def valid_buf_from (E : Env) (buf : Nat) : Nat → Nat → K Unit
  | 0, _ => pure ()
  | n + 1, i => do
    valid_ptr E ((buf + i) % WORD)
    valid_buf_from E buf n (i + 1)

/-- The function `valid_buf` (lines 357-362). -/
def valid_buf (E : Env) (buf size : Nat) : K Unit := valid_buf_from E buf size 0

/-- The kernel reads one byte of user memory (`*(uint8_t*) a`). -/
def deref_u8 (a : Nat) : K Nat := fun s =>
  .ret (s.mem a % 256) (s.push (.read a))

/-- The kernel reads one little-endian 32-bit word (`*(uint32_t*) a`): the
four bytes at `a`, `a + 1`, `a + 2`, `a + 3`. -/
def deref_u32 (a : Nat) : K Nat := do
  let b0 ← deref_u8 a
  let b1 ← deref_u8 ((a + 1) % WORD)
  let b2 ← deref_u8 ((a + 2) % WORD)
  let b3 ← deref_u8 ((a + 3) % WORD)
  pure (b0 + 256 * b1 + 65536 * b2 + 16777216 * b3)

/-- The `while` loop of `valid_string` (lines 366-369); the first argument
bounds the number of iterations. -/
def valid_string_loop (E : Env) : Nat → Nat → K Unit
  | 0, _ => fun s => .stop .out_of_fuel s
  | fuel + 1, string => do
    let c ← deref_u8 string
    if c ≠ 0 then
      valid_ptr E ((string + 1) % WORD)
      valid_string_loop E fuel ((string + 1) % WORD)
    else
      pure ()

/-- The function `valid_string` (lines 364-370).  The loop is given one
iteration per 32-bit address. -/
def valid_string (E : Env) (string : Nat) : K Unit := do
  valid_ptr E string
  valid_string_loop E WORD string

/-! ## Operation handlers (lines 112-340) -/

/-- The function `halt` (lines 112-115); `shutdown_power_off` does not return. -/
def halt {α : Type} : K α := fun s =>
  .stop .power_off (s.push .shutdown_power_off)

/-- The function `exec` (lines 155-163). -/
def exec (E : Env) (cmd_line : Nat) : K Int := do
  emit (.process_execute cmd_line)
  let result := E.process_execute cmd_line
  emit .sema_down
  if E.child_status = -1 then
    pure (-1)
  else
    pure result

/-- The function `wait` (lines 164-167). -/
def wait (E : Env) (pid : Int) : K Int := do
  emit (.process_wait pid)
  pure (E.process_wait pid)

/-- The function `create` (lines 168-174). -/
def create (E : Env) (file initial_size : Nat) : K Bool := do
  lock_acquire
  emit (.filesys_create file initial_size)
  let result := E.filesys_create file initial_size
  lock_release
  pure result

/-- The function `remove` (lines 175-182). -/
def remove (E : Env) (file : Nat) : K Bool := do
  lock_acquire
  emit (.filesys_remove file)
  let result := E.filesys_remove file
  lock_release
  pure result

/-- The function `open` (lines 183-207). -/
def sys_open (E : Env) (file : Nat) : K Int := do
  lock_acquire
  emit .malloc
  if E.malloc = false then
    lock_release
    pure (-1)
  else
    emit (.filesys_open file)
    match E.filesys_open file with
    | none =>
      emit .free_unused
      lock_release
      pure (-1)
    | some currentfile =>
      let t ← get
      let cfileRecord : file_record := { cfile := currentfile, fd := t.total_fd }
      set ((t.set_total_fd (wrap_int (t.total_fd + 1))).set_fd_entries
        (t.fd_entries ++ [cfileRecord]))
      let result := cfileRecord.fd
      lock_release
      pure result

/-- The `for` loop of `file_ptr` (lines 328-336) over the entries still to be
visited, and the `thread_exit ()` of line 337 that follows it. -/
def file_ptr_loop (fd : Int) : List file_record → K (Option Nat)
  | [] => thread_exit
  | tempfileRd :: rest =>
    if tempfileRd.fd = fd then pure (some tempfileRd.cfile)
    else file_ptr_loop fd rest

/-- The function `file_ptr` (lines 320-340); `none` is the NULL result. -/
def file_ptr (fd : Int) : K (Option Nat) := do
  let t ← get
  if t.fd_entries.isEmpty then
    pure none
  else
    file_ptr_loop fd t.fd_entries

/-- The function `filesize` (lines 208-220). -/
def filesize (E : Env) (fd : Int) : K Int := do
  lock_acquire
  let tempfile ← file_ptr fd
  match tempfile with
  | some f =>
    emit (.file_length f)
    let result := E.file_length f
    lock_release
    pure result
  | none =>
    lock_release
    pure (-1)

/-- Store bytes into user memory from address `a` on. -/
def store_bytes (mem : Nat → Nat) : Nat → List Nat → Nat → Nat
  | _, [] => mem
  | a, b :: bs => store_bytes (fun x => if x = a % WORD then b % 256 else mem x) (a + 1) bs

/-- The console loop of `read` (lines 241-245): `n` iterations left, counter
`bytesRead` as a 32-bit pattern. -/
def read_console : Nat → Nat → K Nat
  | 0, bytesRead => pure bytesRead
  | n + 1, bytesRead => do
    emit .input_getc
    read_console n ((bytesRead + 1) % WORD)

/-- The function `read` (lines 221-249). -/
def read (E : Env) (fd : Int) (buffer length : Nat) : K Int := do
  lock_acquire
  if fd = 1 then
    lock_release
    pure (-1)
  else if fd ≠ 0 then
    let tempfile ← file_ptr fd
    match tempfile with
    | none =>
      lock_release
      pure (-1)
    | some f =>
      emit (.file_read f buffer length)
      let data := (E.file_read f buffer length).take length
      let t ← get
      set (t.set_mem (store_bytes t.mem buffer data))
      let result := to_int data.length
      lock_release
      pure result
  else
    let bytesRead ← read_console length 0
    lock_release
    pure (to_int bytesRead)

/-- The function `write` (lines 250-275). -/
def write (E : Env) (fd : Int) (buffer length : Nat) : K Int := do
  lock_acquire
  if fd = 0 then
    lock_release
    pure (-1)
  else if fd ≠ 1 then
    let tempfile ← file_ptr fd
    match tempfile with
    | none =>
      lock_release
      pure (-1)
    | some f =>
      emit (.file_write f buffer length)
      let result := E.file_write f buffer length
      lock_release
      pure result
  else
    emit (.putbuf buffer length)
    lock_release
    pure (to_int length)

/-- The function `seek` (lines 276-285). -/
def seek (fd : Int) (position : Nat) : K Unit := do
  lock_acquire
  let tempfile ← file_ptr fd
  match tempfile with
  | some f =>
    emit (.file_seek f position)
    lock_release
  | none =>
    lock_release

/-- The function `tell` (lines 286-298); the result is `unsigned`, so the
`-1` of line 293 is the word `2^32 - 1`. -/
def tell (E : Env) (fd : Int) : K Nat := do
  lock_acquire
  let tempfile ← file_ptr fd
  match tempfile with
  | none =>
    lock_release
    pure (to_unsigned (-1))
  | some f =>
    emit (.file_tell f)
    let result := to_unsigned (E.file_tell f)
    lock_release
    pure result

/-- The `for` loop of `close` (lines 306-316): the list after the walk and the
calls made; the first entry with the handle is closed, unlinked and freed. -/
def close_loop (fd : Int) : List file_record → List file_record × List Event
  | [] => ([], [])
  | tempfileRd :: rest =>
    if tempfileRd.fd = fd then
      (rest, [.file_close tempfileRd.cfile, .free_file tempfileRd.fd])
    else
      ((tempfileRd :: (close_loop fd rest).1), (close_loop fd rest).2)

/-- The function `close` (lines 299-318). -/
def close (fd : Int) : K Unit := do
  lock_acquire
  let t ← get
  set ((t.set_fd_entries (close_loop fd t.fd_entries).1).push_all
    (close_loop fd t.fd_entries).2)
  lock_release

/-! ## Dispatcher (lines 32-110, 342-348) -/

/-- The loop of `parse_args` (lines 344-347): `n` slots left, at index `i`;
the words read, in order. -/
def parse_args_from (E : Env) (esp : Nat) : Nat → Nat → K (List Nat)
  | 0, _ => pure []
  | n + 1, i => do
    valid_ptr E ((esp + (i + 1) * 4) % WORD)
    let w ← deref_u32 ((esp + (i + 1) * 4) % WORD)
    let rest ← parse_args_from E esp n (i + 1)
    pure (w :: rest)

/-- The function `parse_args` (lines 342-348): the filled prefix of `argBuf`. -/
def parse_args (E : Env) (esp numToParse : Nat) : K (List Nat) :=
  parse_args_from E esp numToParse 0

/-- Modelled from the spec: the call numbers of `lib/syscall-nr.h`, which is
not in the source file; they follow the order of the call table (halt first). -/
def SYS_HALT : Nat := 0
/-- Modelled from the spec: call number of `exit` (`lib/syscall-nr.h`). -/
def SYS_EXIT : Nat := 1
/-- Modelled from the spec: call number of `exec` (`lib/syscall-nr.h`). -/
def SYS_EXEC : Nat := 2
/-- Modelled from the spec: call number of `wait` (`lib/syscall-nr.h`). -/
def SYS_WAIT : Nat := 3
/-- Modelled from the spec: call number of `create` (`lib/syscall-nr.h`). -/
def SYS_CREATE : Nat := 4
/-- Modelled from the spec: call number of `remove` (`lib/syscall-nr.h`). -/
def SYS_REMOVE : Nat := 5
/-- Modelled from the spec: call number of `open` (`lib/syscall-nr.h`). -/
def SYS_OPEN : Nat := 6
/-- Modelled from the spec: call number of `filesize` (`lib/syscall-nr.h`). -/
def SYS_FILESIZE : Nat := 7
/-- Modelled from the spec: call number of `read` (`lib/syscall-nr.h`). -/
def SYS_READ : Nat := 8
/-- Modelled from the spec: call number of `write` (`lib/syscall-nr.h`). -/
def SYS_WRITE : Nat := 9
/-- Modelled from the spec: call number of `seek` (`lib/syscall-nr.h`). -/
def SYS_SEEK : Nat := 10
/-- Modelled from the spec: call number of `tell` (`lib/syscall-nr.h`). -/
def SYS_TELL : Nat := 11
/-- Modelled from the spec: call number of `close` (`lib/syscall-nr.h`). -/
def SYS_CLOSE : Nat := 12

/-- The assignment `f->eax = v` of a 32-bit word. -/
def set_eax (v : Nat) : K Unit := fun s => .ret () (s.set_eax (v % WORD))

/-- The `bool` result as a word. -/
def of_bool (b : Bool) : Nat := if b then 1 else 0

/-- The `switch` of `syscall_handler` (lines 40-108). -/
def dispatch (E : Env) (esp current_syscall : Nat) : K Unit :=
  if current_syscall = SYS_HALT then
    halt
  else if current_syscall = SYS_EXIT then do
    let args ← parse_args E esp 1
    exit (to_int (args.getD 0 0))
  else if current_syscall = SYS_EXEC then do
    let args ← parse_args E esp 1
    valid_ptr E (args.getD 0 0)
    valid_string E (args.getD 0 0)
    let r ← exec E (args.getD 0 0)
    set_eax (to_unsigned r)
  else if current_syscall = SYS_WAIT then do
    let args ← parse_args E esp 1
    let r ← wait E (to_int (args.getD 0 0))
    set_eax (to_unsigned r)
  else if current_syscall = SYS_CREATE then do
    let args ← parse_args E esp 2
    valid_ptr E (args.getD 0 0)
    valid_buf E (args.getD 0 0) (args.getD 1 0)
    valid_string E (args.getD 0 0)
    let r ← create E (args.getD 0 0) (args.getD 1 0)
    set_eax (of_bool r)
  else if current_syscall = SYS_REMOVE then do
    let args ← parse_args E esp 1
    valid_ptr E (args.getD 0 0)
    valid_string E (args.getD 0 0)
    let r ← remove E (args.getD 0 0)
    set_eax (of_bool r)
  else if current_syscall = SYS_OPEN then do
    let args ← parse_args E esp 1
    valid_ptr E (args.getD 0 0)
    valid_string E (args.getD 0 0)
    let r ← sys_open E (args.getD 0 0)
    set_eax (to_unsigned r)
  else if current_syscall = SYS_FILESIZE then do
    let args ← parse_args E esp 1
    let r ← filesize E (to_int (args.getD 0 0))
    set_eax (to_unsigned r)
  else if current_syscall = SYS_READ then do
    let args ← parse_args E esp 3
    valid_ptr E (args.getD 1 0)
    valid_buf E (args.getD 1 0) (args.getD 2 0)
    let r ← read E (to_int (args.getD 0 0)) (args.getD 1 0) (args.getD 2 0)
    set_eax (to_unsigned r)
  else if current_syscall = SYS_WRITE then do
    let args ← parse_args E esp 3
    valid_ptr E (args.getD 1 0)
    valid_buf E (args.getD 1 0) (args.getD 2 0)
    let r ← write E (to_int (args.getD 0 0)) (args.getD 1 0) (args.getD 2 0)
    set_eax (to_unsigned r)
  else if current_syscall = SYS_SEEK then do
    let args ← parse_args E esp 2
    seek (to_int (args.getD 0 0)) (args.getD 1 0)
  else if current_syscall = SYS_TELL then do
    let args ← parse_args E esp 1
    let r ← tell E (to_int (args.getD 0 0))
    set_eax r
  else if current_syscall = SYS_CLOSE then do
    let args ← parse_args E esp 1
    close (to_int (args.getD 0 0))
  else
    exit (-1)

/-- The function `syscall_handler` (lines 32-110); `esp` is `f->esp`. -/
def syscall_handler (E : Env) (esp : Nat) : K Unit := do
  valid_ptr E esp
  let current_syscall ← deref_u32 esp
  dispatch E esp current_syscall
  emit .thread_yield

/-! ## Observations used in the statements -/

/-- The files passed to `file_close`, in call order. -/
def closed_files : List Event → List Nat
  | [] => []
  | .file_close f :: rest => f :: closed_files rest
  | _ :: rest => closed_files rest

/-- A small page directory: only the page `0x08049000 .. 0x08049fff` is mapped. -/
def sample_env : Env where
  phys_base := 0xC0000000
  pagedir_get_page := fun a => decide (a / 4096 = 0x08049)
  process_execute := fun _ => 3
  child_status := 0
  process_wait := fun _ => 0
  filesys_create := fun _ _ => true
  filesys_remove := fun _ => true
  malloc := true
  filesys_open := fun _ => some 77
  file_length := fun _ => 10
  file_read := fun _ _ _ => []
  file_write := fun _ _ n => n
  file_tell := fun _ => 0

/-- A process with one open file (handle 2), two children, and a live parent
that holds records for thread 4 and for this thread, 5. -/
def sample_state : State where
  tid := 5
  parent_alive := true
  parent_childlist := [⟨4, some 1, 0⟩, ⟨5, some 2, 0⟩]
  parent_wait := false
  exefile := 9
  childlist := [⟨6, some 3, 0⟩, ⟨7, none, 1⟩]
  fd_entries := [⟨2, 70⟩]
  total_fd := 3
  filesys_mutex := false
  mem := fun _ => 0
  eax := 0
  trace := []

/-- Every read of user memory in `evs` is of an address in `seen` or comes
after a successful `valid_ptr` check of the same address within `evs`. -/
def reads_after_check_from (seen : Nat → Prop) (evs : List Event) : Prop :=
  ∀ pre a post, evs = pre ++ Event.read a :: post → seen a ∨ Event.checked a ∈ pre

/-- Every read of user memory in `evs` comes after a successful `valid_ptr`
check of the same address. -/
def reads_after_check (evs : List Event) : Prop :=
  reads_after_check_from (fun _ => False) evs

/-- The calls `exit (status)` makes from state `s`, in order. -/
def exit_events (status : Int) (s : State) : List Event :=
  [Event.printf_exit status] ++ (if s.parent_wait then [Event.sema_up] else [])
    ++ [Event.file_close s.exefile]
    ++ (s.childlist.map fun cr => Event.free_child cr.id)
    ++ (s.fd_entries.flatMap fun fr => [Event.file_close fr.cfile, Event.free_file fr.fd])
    ++ [Event.thread_exit]

/-- User memory of a `close` trap whose stack pointer is `0x08049ff9`: the
call-number word holds 12, every other byte is 0. -/
def close_trap_mem : Nat → Nat := fun a => if a = 0x08049FF9 then 12 else 0

/-- User memory of a `create` trap at stack pointer `0x08049f00`: the call
number 4, the path pointer `0x08049ffe`, the size 3, and the path `"a"` in the
last two bytes of the mapped page. -/
def create_trap_mem : Nat → Nat := fun a =>
  if a = 0x08049F00 then 4
  else if a = 0x08049F04 then 0xFE
  else if a = 0x08049F05 then 0x9F
  else if a = 0x08049F06 then 0x04
  else if a = 0x08049F07 then 0x08
  else if a = 0x08049F08 then 3
  else if a = 0x08049FFE then 97
  else 0

/-- The handles of the entries of a descriptor list, in list order. -/
def handles (l : List file_record) : List Int := l.map (·.fd)

/-- The handles in the descriptor list are pairwise distinct and each is
strictly below the next-fd counter. -/
def fd_inv (s : State) : Prop :=
  (handles s.fd_entries).Nodup ∧ ∀ r ∈ s.fd_entries, r.fd < s.total_fd

instance (s : State) : Decidable (fd_inv s) := by
  unfold fd_inv
  infer_instance

/-- A process with an empty table whose counter is `INT_MAX`. -/
def full_counter_state : State where
  tid := 5
  parent_alive := false
  parent_childlist := []
  parent_wait := false
  exefile := 9
  childlist := []
  fd_entries := []
  total_fd := 2147483647
  filesys_mutex := false
  mem := fun _ => 0
  eax := 0
  trace := []

/-- One call of a sequence of `open` and `close` calls of a process; an
`open` comes with the answers of the allocator and the filesystem to it. -/
inductive FdCall where
  | sys_open (E : Env) (file : Nat)
  | close (fd : Int)

/-- The allocation and the filesystem open of an `open` call both succeed. -/
def open_succeeds (E : Env) (file : Nat) : Bool :=
  E.malloc && (E.filesys_open file).isSome

/-- Number of `open` calls in the sequence that succeed. -/
def successful_opens : List FdCall → Nat
  | [] => 0
  | .sys_open E file :: rest =>
    (if open_succeeds E file then 1 else 0) + successful_opens rest
  | .close _ :: rest => successful_opens rest

/-- Run the calls one after the other from state `s`; for every `open` that
succeeds, log the handle it returned and the handles that were live in the
table when it was called. -/
def run_calls : List FdCall → State → List (Int × List Int)
  | [], _ => []
  | .sys_open E file :: rest, s =>
    match sys_open E file s with
    | .ret h s1 =>
      if open_succeeds E file then (h, handles s.fd_entries) :: run_calls rest s1
      else run_calls rest s1
    | .stop _ _ => []
  | .close fd :: rest, s =>
    match close fd s with
    | .ret _ s1 => run_calls rest s1
    | .stop _ _ => []

/-- The little-endian 32-bit word held by user memory at address `a`. -/
def word_at (mem : Nat → Nat) (a : Nat) : Nat :=
  mem a % 256 + 256 * (mem ((a + 1) % WORD) % 256) + 65536 * (mem ((a + 2) % WORD) % 256)
    + 16777216 * (mem ((a + 3) % WORD) % 256)

/-- The event is a successful `valid_ptr` check or a read of user memory. -/
def probe (e : Event) : Prop := ∃ a, e = Event.checked a ∨ e = Event.read a

/-- Run from state `s`, `m` does nothing but check and read user memory, and
then either returns a value that satisfies `post` or ends the process through
`exit (-1)`. -/
def checks_at {α : Type} (m : K α) (s : State) (post : α → Prop) : Prop :=
  ∃ evs, (∀ e ∈ evs, probe e)
    ∧ ((∃ a, post a ∧ m s = Outcome.ret a (s.push_all evs)) ∨ m s = exit (-1) (s.push_all evs))

/-- The validations of one case of the `switch` (lines 42-108), in the order
of the source: `parse_args` and the `valid_ptr`, `valid_buf` and
`valid_string` calls that come before the handler call.  The result is the
argument words. -/
def checks_for (E : Env) (esp n : Nat) : K (List Nat) :=
  if n = SYS_HALT then
    pure []
  else if n = SYS_EXIT then
    parse_args E esp 1
  else if n = SYS_EXEC then do
    let args ← parse_args E esp 1
    valid_ptr E (args.getD 0 0)
    valid_string E (args.getD 0 0)
    pure args
  else if n = SYS_WAIT then
    parse_args E esp 1
  else if n = SYS_CREATE then do
    let args ← parse_args E esp 2
    valid_ptr E (args.getD 0 0)
    valid_buf E (args.getD 0 0) (args.getD 1 0)
    valid_string E (args.getD 0 0)
    pure args
  else if n = SYS_REMOVE then do
    let args ← parse_args E esp 1
    valid_ptr E (args.getD 0 0)
    valid_string E (args.getD 0 0)
    pure args
  else if n = SYS_OPEN then do
    let args ← parse_args E esp 1
    valid_ptr E (args.getD 0 0)
    valid_string E (args.getD 0 0)
    pure args
  else if n = SYS_FILESIZE then
    parse_args E esp 1
  else if n = SYS_READ then do
    let args ← parse_args E esp 3
    valid_ptr E (args.getD 1 0)
    valid_buf E (args.getD 1 0) (args.getD 2 0)
    pure args
  else if n = SYS_WRITE then do
    let args ← parse_args E esp 3
    valid_ptr E (args.getD 1 0)
    valid_buf E (args.getD 1 0) (args.getD 2 0)
    pure args
  else if n = SYS_SEEK then
    parse_args E esp 2
  else if n = SYS_TELL then
    parse_args E esp 1
  else if n = SYS_CLOSE then
    parse_args E esp 1
  else
    pure []

/-- What follows the validations in each case of the `switch`: the call of
the operation handler on the argument words and, for the calls that produce a
result, the assignment to `f->eax`. -/
def call_for (E : Env) (n : Nat) (args : List Nat) : K Unit :=
  if n = SYS_HALT then
    halt
  else if n = SYS_EXIT then
    exit (to_int (args.getD 0 0))
  else if n = SYS_EXEC then do
    let r ← exec E (args.getD 0 0)
    set_eax (to_unsigned r)
  else if n = SYS_WAIT then do
    let r ← wait E (to_int (args.getD 0 0))
    set_eax (to_unsigned r)
  else if n = SYS_CREATE then do
    let r ← create E (args.getD 0 0) (args.getD 1 0)
    set_eax (of_bool r)
  else if n = SYS_REMOVE then do
    let r ← remove E (args.getD 0 0)
    set_eax (of_bool r)
  else if n = SYS_OPEN then do
    let r ← sys_open E (args.getD 0 0)
    set_eax (to_unsigned r)
  else if n = SYS_FILESIZE then do
    let r ← filesize E (to_int (args.getD 0 0))
    set_eax (to_unsigned r)
  else if n = SYS_READ then do
    let r ← read E (to_int (args.getD 0 0)) (args.getD 1 0) (args.getD 2 0)
    set_eax (to_unsigned r)
  else if n = SYS_WRITE then do
    let r ← write E (to_int (args.getD 0 0)) (args.getD 1 0) (args.getD 2 0)
    set_eax (to_unsigned r)
  else if n = SYS_SEEK then
    seek (to_int (args.getD 0 0)) (args.getD 1 0)
  else if n = SYS_TELL then do
    let r ← tell E (to_int (args.getD 0 0))
    set_eax r
  else if n = SYS_CLOSE then
    close (to_int (args.getD 0 0))
  else
    exit (-1)

/-- All validations of a trap: the check of `esp` and the read of the call
number (lines 37-38), then the validations of the selected case.  The result
is the call number and the argument words. -/
def trap_checks (E : Env) (esp : Nat) : K (Nat × List Nat) := do
  valid_ptr E esp
  let n ← deref_u32 esp
  let args ← checks_for E esp n
  pure (n, args)
/-- The first `k` argument words above the call number: the words at
`esp + 4`, `esp + 8`, ... -/
def slot_words (mem : Nat → Nat) (esp k : Nat) : List Nat :=
  (List.range k).map fun j => word_at mem ((esp + (j + 1) * 4) % WORD)

/-- Number of argument words `parse_args` is asked for in each case of the
`switch`. -/
def arity (n : Nat) : Nat :=
  if n = SYS_HALT then 0
  else if n = SYS_CREATE ∨ n = SYS_SEEK then 2
  else if n = SYS_READ ∨ n = SYS_WRITE then 3
  else if n ≤ SYS_CLOSE then 1
  else 0

/-- User memory of a `filesize` trap at stack pointer `0x08049f00`: the call
number 7 and the handle 2. -/
def filesize_trap_mem : Nat → Nat := fun a =>
  if a = 0x08049F00 then 7
  else if a = 0x08049F04 then 2
  else 0

/-- User memory of a `write` trap at stack pointer `0x08049f00`: the call
number 9, the handle 1, the buffer pointer 0 and the length 0. -/
def write_trap_mem : Nat → Nat := fun a =>
  if a = 0x08049F00 then 9
  else if a = 0x08049F04 then 1
  else 0

/-- User memory of a trap at stack pointer `0x08049f00` whose call-number word
is 13. -/
def unknown_trap_mem : Nat → Nat := fun a => if a = 0x08049F00 then 13 else 0

/-! # Theorems -/

/-! ## Basic facts about the state updates and sequencing -/

theorem State.push_eq (s : State) (x : Event) :
    s.push x = { s with trace := s.trace ++ [x] } := rfl

theorem State.push_all_eq (s : State) (x : List Event) :
    s.push_all x = { s with trace := s.trace ++ x } := rfl

theorem State.set_mutex_eq (s : State) (x : Bool) :
    s.set_mutex x = { s with filesys_mutex := x } := rfl

theorem State.set_fd_entries_eq (s : State) (x : List file_record) :
    s.set_fd_entries x = { s with fd_entries := x } := rfl

theorem State.set_total_fd_eq (s : State) (x : Int) :
    s.set_total_fd x = { s with total_fd := x } := rfl

theorem State.set_childlist_eq (s : State) (x : List child_record) :
    s.set_childlist x = { s with childlist := x } := rfl

theorem State.set_parent_childlist_eq (s : State) (x : List child_record) :
    s.set_parent_childlist x = { s with parent_childlist := x } := rfl

theorem State.set_mem_eq (s : State) (x : Nat → Nat) :
    s.set_mem x = { s with mem := x } := rfl

theorem State.set_eax_eq (s : State) (x : Nat) :
    s.set_eax x = { s with eax := x } := rfl

@[simp] theorem bind_apply {α β : Type} (m : K α) (f : α → K β) (s : State) :
    (m >>= f) s = (m s).and_then f := rfl

@[simp] theorem and_then_ret {α β : Type} (a : α) (s : State) (f : α → State → Outcome β) :
    (Outcome.ret a s).and_then f = f a s := rfl

@[simp] theorem and_then_stop {α β : Type} (r : Stop) (s : State)
    (f : α → State → Outcome β) :
    (Outcome.stop r s : Outcome α).and_then f = Outcome.stop r s := rfl

@[simp] theorem pure_apply {α : Type} (a : α) (s : State) :
    (pure a : K α) s = .ret a s := rfl

theorem exit_free_children_eq (l : List child_record) (s : State) (h : s.childlist = l) :
    exit_free_children l s
      = (s.set_childlist []).push_all (l.map fun cr => Event.free_child cr.id) := by
  induction l generalizing s with
  | nil =>
    cases s
    simp only [State.set_childlist_eq, State.push_all_eq] at *
    simp [exit_free_children, h]
  | cons cr rest ih =>
    rw [exit_free_children, ih _ (by simp [State.set_childlist_eq, State.push_eq])]
    simp [State.set_childlist_eq, State.push_eq, State.push_all_eq]

theorem exit_close_files_eq (l : List file_record) (s : State) (h : s.fd_entries = l) :
    exit_close_files l s
      = (s.set_fd_entries []).push_all
          (l.flatMap fun fr => [Event.file_close fr.cfile, Event.free_file fr.fd]) := by
  induction l generalizing s with
  | nil =>
    cases s
    simp only [State.set_fd_entries_eq, State.push_all_eq] at *
    simp [exit_close_files, h]
  | cons fr rest ih =>
    rw [exit_close_files, ih _ (by simp [State.set_fd_entries_eq, State.push_eq])]
    simp [State.set_fd_entries_eq, State.push_eq, State.push_all_eq]

theorem closed_files_append (l1 l2 : List Event) :
    closed_files (l1 ++ l2) = closed_files l1 ++ closed_files l2 := by
  induction l1 with
  | nil => rfl
  | cons e rest ih => cases e <;> simp [closed_files, ih]

theorem closed_files_free_children (l : List child_record) :
    closed_files (l.map fun cr => Event.free_child cr.id) = [] := by
  induction l with
  | nil => rfl
  | cons cr rest ih => simpa [closed_files] using ih

theorem closed_files_close_all (l : List file_record) :
    closed_files (l.flatMap fun fr => [Event.file_close fr.cfile, Event.free_file fr.fd])
      = l.map (·.cfile) := by
  induction l with
  | nil => rfl
  | cons fr rest ih => simpa [closed_files] using ih

/-- The events `exit` appends to the trace. -/
theorem exit_trace {α : Type} (status : Int) (s : State) :
    (exit status s : Outcome α).state.trace = s.trace ++ exit_events status s := by
  unfold exit exit_events
  simp only [Outcome.state]
  rw [exit_close_files_eq _ _ rfl, exit_free_children_eq _ _ rfl]
  cases hpa : s.parent_alive <;> cases hpw : s.parent_wait <;>
    simp [State.set_childlist_eq, State.set_fd_entries_eq, State.push_eq, State.push_all_eq,
      State.set_parent_childlist_eq, hpw]

/-- C9: after `exit (status)` has run to its `thread_exit ()`, the file
descriptor list and the child-record list of the process are both empty, and
the `file_close` calls made on the way are exactly one for the executable
followed by one for each entry that was in the descriptor list, whatever the
number of entries and records. -/
theorem exit_drains_lists (status : Int) (s : State) :
    (exit status s : Outcome Unit).stopped = some (Stop.exit status)
    ∧ (exit status s : Outcome Unit).state.fd_entries = []
    ∧ (exit status s : Outcome Unit).state.childlist = []
    ∧ ∃ evs, (exit status s : Outcome Unit).state.trace = s.trace ++ evs
        ∧ closed_files evs = s.exefile :: s.fd_entries.map (·.cfile) := by
  refine ⟨rfl, ?_, ?_, _, exit_trace status s, ?_⟩
  · unfold exit
    simp only [Outcome.state]
    rw [exit_close_files_eq _ _ rfl]
    simp [State.set_fd_entries_eq, State.push_eq, State.push_all_eq]
  · unfold exit
    simp only [Outcome.state]
    rw [exit_close_files_eq _ _ rfl, exit_free_children_eq _ _ rfl]
    simp [State.set_childlist_eq, State.set_fd_entries_eq, State.push_eq, State.push_all_eq]
  · simp only [exit_events, closed_files_append, closed_files_free_children,
      closed_files_close_all]
    cases s.parent_wait <;> simp [closed_files]

theorem exit_parent_childlist {α : Type} (status : Int) (s : State) :
    (exit status s : Outcome α).state.parent_childlist
      = if s.parent_alive then exit_record s.tid status s.parent_childlist
        else s.parent_childlist := by
  unfold exit
  simp only [Outcome.state]
  rw [exit_close_files_eq _ _ rfl, exit_free_children_eq _ _ rfl]
  cases hpa : s.parent_alive <;> cases hpw : s.parent_wait <;>
    simp [State.set_childlist_eq, State.set_fd_entries_eq, State.push_eq, State.push_all_eq,
      State.set_parent_childlist_eq, hpw]

theorem exit_record_split (tid status : Int) (l : List child_record)
    (h : ∃ r ∈ l, r.id = tid) :
    ∃ pre r post, l = pre ++ r :: post ∧ r.id = tid ∧ (∀ x ∈ pre, x.id ≠ tid)
      ∧ exit_record tid status l
          = pre ++ { r with retVal := status, child := none } :: post := by
  induction l with
  | nil => simp at h
  | cons cr rest ih =>
    by_cases hc : cr.id = tid
    · exact ⟨[], cr, rest, rfl, hc, by simp, by simp [exit_record, hc]⟩
    · have h2 : ∃ r ∈ rest, r.id = tid := by
        obtain ⟨r, hr, hid⟩ := h
        rcases List.mem_cons.mp hr with rfl | hr
        · exact absurd hid hc
        · exact ⟨r, hr, hid⟩
      obtain ⟨pre, r, post, hl, hid, hpre, hrec⟩ := ih h2
      refine ⟨cr :: pre, r, post, by simp [hl], hid, ?_, by simp [exit_record, hc, hrec]⟩
      intro x hx
      rcases List.mem_cons.mp hx with rfl | hx
      · exact hc
      · exact hpre x hx

/-- C10: for every `int` status, when the parent is alive and its child list
holds a record with the id of the exiting thread, `exit (status)` stores
exactly `status` in the first such record and clears its back-pointer; the
records before and after it, their order, and the id of the updated record
are unchanged.  When the parent is not alive its child list is untouched. -/
theorem exit_hands_status_to_parent (status : Int) (s : State) :
    (s.parent_alive = true → (∃ r ∈ s.parent_childlist, r.id = s.tid) →
      ∃ pre r post, s.parent_childlist = pre ++ r :: post ∧ r.id = s.tid
        ∧ (∀ x ∈ pre, x.id ≠ s.tid)
        ∧ (exit status s : Outcome Unit).state.parent_childlist
            = pre ++ { id := r.id, child := none, retVal := status } :: post)
    ∧ (s.parent_alive = false →
        (exit status s : Outcome Unit).state.parent_childlist = s.parent_childlist) := by
  constructor
  · intro ha hex
    obtain ⟨pre, r, post, hl, hid, hpre, hrec⟩ := exit_record_split s.tid status _ hex
    exact ⟨pre, r, post, hl, hid, hpre, by rw [exit_parent_childlist, ha]; simpa using hrec⟩
  · intro ha
    rw [exit_parent_childlist, ha]
    simp

/-- C10, at a concrete process: thread 5 exits with status `-7`. -/
theorem exit_hands_status_to_parent_witness :
    ∃ pre r post, sample_state.parent_childlist = pre ++ r :: post ∧ r.id = sample_state.tid
      ∧ (∀ x ∈ pre, x.id ≠ sample_state.tid)
      ∧ (exit (-7) sample_state : Outcome Unit).state.parent_childlist
          = pre ++ { id := r.id, child := none, retVal := -7 } :: post :=
  (exit_hands_status_to_parent (-7) sample_state).1 rfl ⟨⟨5, some 2, 0⟩, by decide, rfl⟩

/-! ## The validator -/

theorem reads_after_check_from_nil (seen : Nat → Prop) : reads_after_check_from seen [] := by
  intro pre a post h
  simp at h

theorem reads_after_check_from_mono {seen seen2 : Nat → Prop} {evs : List Event}
    (h : reads_after_check_from seen evs) (hm : ∀ a, seen a → seen2 a) :
    reads_after_check_from seen2 evs := by
  intro pre a post he
  rcases h pre a post he with h1 | h1
  · exact Or.inl (hm a h1)
  · exact Or.inr h1

theorem reads_after_check_from_cons {seen : Nat → Prop} {e : Event} {evs : List Event}
    (he : ∀ a, e = Event.read a → seen a)
    (h : reads_after_check_from (fun a => seen a ∨ e = Event.checked a) evs) :
    reads_after_check_from seen (e :: evs) := by
  intro pre a post hsplit
  cases pre with
  | nil =>
    simp only [List.nil_append, List.cons.injEq] at hsplit
    exact Or.inl (he a hsplit.1)
  | cons x pre2 =>
    simp only [List.cons_append, List.cons.injEq] at hsplit
    obtain ⟨rfl, hrest⟩ := hsplit
    rcases h pre2 a post hrest with (h1 | h1) | h1
    · exact Or.inl h1
    · exact Or.inr (by simp [h1])
    · exact Or.inr (List.mem_cons_of_mem _ h1)

theorem reads_after_check_from_no_reads {seen : Nat → Prop} {evs : List Event}
    (h : ∀ a, Event.read a ∉ evs) : reads_after_check_from seen evs := by
  intro pre a post hsplit
  exact absurd (by simp [hsplit]) (h a)

theorem exit_events_no_read (status : Int) (s : State) (a : Nat) :
    Event.read a ∉ exit_events status s := by
  unfold exit_events
  cases s.parent_wait <;> simp

theorem exit_events_no_checked (status : Int) (s : State) (a : Nat) :
    Event.checked a ∉ exit_events status s := by
  unfold exit_events
  cases s.parent_wait <;> simp

theorem exit_stopped {α : Type} (status : Int) (s : State) :
    (exit status s : Outcome α).stopped = some (Stop.exit status) := rfl

@[simp] theorem exit_and_then {α β : Type} (status : Int) (s : State)
    (f : α → State → Outcome β) :
    (exit status s : Outcome α).and_then f = exit status s := rfl

theorem exit_mem {α : Type} (status : Int) (s : State) :
    (exit status s : Outcome α).state.mem = s.mem := by
  unfold exit
  simp only [Outcome.state]
  rw [exit_close_files_eq _ _ rfl, exit_free_children_eq _ _ rfl]
  cases hpa : s.parent_alive <;> cases hpw : s.parent_wait <;>
    simp [State.set_childlist_eq, State.set_fd_entries_eq, State.push_eq, State.push_all_eq,
      State.set_parent_childlist_eq, hpw]

theorem valid_addr_pos {E : Env} {a : Nat} (h : valid_addr E a = true) : 0 < a := by
  simp only [valid_addr, USER_VADDR_BOUND, Bool.and_eq_true, decide_eq_true_eq] at h
  omega

/-- What one call of `valid_ptr` does. -/
theorem valid_ptr_apply (E : Env) (a : Nat) (s : State) :
    valid_ptr E a s = if valid_addr E a then Outcome.ret () (s.push (Event.checked a))
      else exit (-1) s := by
  unfold valid_ptr
  split <;> rfl

/-- The scan loop of `valid_string`, started at a checked address with
enough iterations left, ends; see `valid_string_safe`. -/
theorem valid_string_loop_spec (E : Env) (fuel : Nat) :
    ∀ (string : Nat) (s : State), string < WORD → WORD - string ≤ fuel →
    ∃ evs, (valid_string_loop E fuel string s).state.trace = s.trace ++ evs
      ∧ (valid_string_loop E fuel string s).state.mem = s.mem
      ∧ reads_after_check_from (fun a => a = string) evs
      ∧ (∀ a, Event.checked a ∈ evs → valid_addr E a = true)
      ∧ ((valid_string_loop E fuel string s).stopped = some (Stop.exit (-1))
        ∨ ((valid_string_loop E fuel string s).stopped = none
          ∧ ∃ n, string + n < WORD ∧ s.mem (string + n) % 256 = 0
            ∧ (∀ i, i < n → s.mem (string + i) % 256 ≠ 0)
            ∧ ∀ i, 0 < i → i ≤ n → Event.checked (string + i) ∈ evs)) := by
  induction fuel with
  | zero => intro string s h1 h2; omega
  | succ fuel ih =>
    intro string s h1 h2
    by_cases hc : s.mem string % 256 = 0
    · refine ⟨[Event.read string], ?_, ?_, ?_, ?_, Or.inr ⟨?_, 0, ?_⟩⟩
      · simp [valid_string_loop, deref_u8, hc, Outcome.state, State.push_eq]
      · simp [valid_string_loop, deref_u8, hc, Outcome.state, State.push_eq]
      · exact reads_after_check_from_cons (by simp) (reads_after_check_from_nil _)
      · simp
      · simp [valid_string_loop, deref_u8, hc, Outcome.stopped]
      · exact ⟨by omega, by simpa using hc, by omega, by omega⟩
    · by_cases hv : valid_addr E ((string + 1) % WORD) = true
      · have hlt : string + 1 < WORD := by
          by_contra hge
          have h0 : (string + 1) % WORD = 0 := by
            have : string + 1 = WORD := by omega
            rw [this]; exact Nat.mod_self _
          rw [h0] at hv
          exact absurd (valid_addr_pos hv) (by omega)
        have hmod : (string + 1) % WORD = string + 1 := Nat.mod_eq_of_lt hlt
        rw [hmod] at hv
        have hstep : valid_string_loop E (fuel + 1) string s
            = valid_string_loop E fuel (string + 1)
                ((s.push (Event.read string)).push (Event.checked (string + 1))) := by
          simp [valid_string_loop, deref_u8, hc, valid_ptr_apply, hmod, hv]
        obtain ⟨evs, ht, hm, hr, hck, hres⟩ :=
          ih (string + 1) ((s.push (Event.read string)).push (Event.checked (string + 1)))
            hlt (by omega)
        rw [hstep]
        refine ⟨Event.read string :: Event.checked (string + 1) :: evs, ?_, ?_, ?_, ?_, ?_⟩
        · rw [ht]; simp [State.push_eq]
        · rw [hm]; simp [State.push_eq]
        · refine reads_after_check_from_cons (by simp) (reads_after_check_from_cons (by simp) ?_)
          exact reads_after_check_from_mono hr (by intro a ha; right; rw [ha])
        · intro a ha
          simp only [List.mem_cons, Event.checked.injEq, false_or, reduceCtorEq] at ha
          rcases ha with rfl | ha
          · exact hv
          · exact hck a ha
        · rcases hres with hres | ⟨hres, n, hn1, hn2, hn3, hn4⟩
          · exact Or.inl hres
          · refine Or.inr ⟨hres, n + 1, by omega, ?_, ?_, ?_⟩
            · have : string + (n + 1) = string + 1 + n := by omega
              rw [this]; simpa [State.push_eq] using hn2
            · intro i hi
              cases i with
              | zero => simpa using hc
              | succ i =>
                have : string + (i + 1) = string + 1 + i := by omega
                rw [this]
                simpa [State.push_eq] using hn3 i (by omega)
            · intro i hi0 hi
              by_cases hi1 : i = 1
              · subst hi1; simp
              · have h4 := hn4 (i - 1) (by omega) (by omega)
                have : string + 1 + (i - 1) = string + i := by omega
                rw [this] at h4
                exact List.mem_cons_of_mem _ (List.mem_cons_of_mem _ h4)
      · have hv2 : valid_addr E ((string + 1) % WORD) = false := by simpa using hv
        have hstep : valid_string_loop E (fuel + 1) string s
            = exit (-1) (s.push (Event.read string)) := by
          simp [valid_string_loop, deref_u8, hc, valid_ptr_apply, hv2]
        rw [hstep]
        refine ⟨Event.read string :: exit_events (-1) (s.push (Event.read string)),
          ?_, ?_, ?_, ?_, Or.inl rfl⟩
        · rw [exit_trace]; simp [State.push_eq]
        · rw [exit_mem]; simp [State.push_eq]
        · exact reads_after_check_from_cons (by simp)
            (reads_after_check_from_no_reads (exit_events_no_read _ _))
        · intro a ha
          simp only [List.mem_cons, reduceCtorEq, false_or] at ha
          exact absurd ha (exit_events_no_checked _ _ a)
/-- A scan that meets no NUL byte before the first invalid address `e` ends
in `exit (-1)`. -/
theorem valid_string_loop_runs_off (E : Env) (fuel : Nat) :
    ∀ (string e : Nat) (s : State), string < e → e < WORD → e - string ≤ fuel →
    (∀ a, string ≤ a → a < e → s.mem a % 256 ≠ 0) →
    (∀ a, string < a → a < e → valid_addr E a = true) →
    valid_addr E e = false →
    (valid_string_loop E fuel string s).stopped = some (Stop.exit (-1)) := by
  induction fuel with
  | zero => intro string e s h1 h2 h3; omega
  | succ fuel ih =>
    intro string e s h1 h2 h3 hmem hval he
    have hc : ¬ s.mem string % 256 = 0 := hmem string (le_refl _) h1
    have hmod : (string + 1) % WORD = string + 1 := Nat.mod_eq_of_lt (by omega)
    by_cases hlast : string + 1 = e
    · have hv2 : valid_addr E (string + 1) = false := by rw [hlast]; exact he
      simp [valid_string_loop, deref_u8, hc, valid_ptr_apply, hmod, hv2, exit_stopped]
    · have hv : valid_addr E (string + 1) = true := hval _ (by omega) (by omega)
      have hstep : valid_string_loop E (fuel + 1) string s
          = valid_string_loop E fuel (string + 1)
              ((s.push (Event.read string)).push (Event.checked (string + 1))) := by
        simp [valid_string_loop, deref_u8, hc, valid_ptr_apply, hmod, hv]
      rw [hstep]
      exact ih (string + 1) e _ (by omega) h2 (by omega)
        (fun a ha1 ha2 => by simpa [State.push_eq] using hmem a (by omega) ha2)
        (fun a ha1 ha2 => hval a (by omega) ha2) he

/-- C4: `valid_string` ends for every page mapping and start address (the
iteration budget of the model is never used up), and it either returns or
ends the process through `exit (-1)`.  Every byte it reads was checked by
`valid_ptr` before, and only valid addresses pass the check.  When it returns,
the addresses from the start through the first NUL byte were all checked.  A
string whose bytes are all non-NUL and valid up to an address `e` that is not
mapped ends in `exit (-1)`. -/
theorem valid_string_safe (E : Env) (string : Nat) (s : State) (hs : string < WORD) :
    (valid_string E string s).stopped ≠ some Stop.out_of_fuel
    ∧ ((valid_string E string s).stopped = none
        ∨ (valid_string E string s).stopped = some (Stop.exit (-1)))
    ∧ (∃ evs, (valid_string E string s).state.trace = s.trace ++ evs
        ∧ reads_after_check evs
        ∧ (∀ a, Event.checked a ∈ evs → valid_addr E a = true)
        ∧ ((valid_string E string s).stopped = none →
            ∃ n, s.mem (string + n) % 256 = 0
              ∧ (∀ i, i < n → s.mem (string + i) % 256 ≠ 0)
              ∧ ∀ i, i ≤ n → Event.checked (string + i) ∈ evs))
    ∧ (∀ e, string ≤ e → e < WORD →
        (∀ a, string ≤ a → a < e → valid_addr E a = true ∧ s.mem a % 256 ≠ 0) →
        E.pagedir_get_page e = false →
        (valid_string E string s).stopped = some (Stop.exit (-1))) := by
  by_cases hv : valid_addr E string = true
  · have hstep : valid_string E string s
        = valid_string_loop E WORD string (s.push (Event.checked string)) := by
      simp [valid_string, valid_ptr_apply, hv]
    obtain ⟨evs, ht, _, hr, hck, hres⟩ :=
      valid_string_loop_spec E WORD string (s.push (Event.checked string)) hs (by omega)
    rw [hstep]
    refine ⟨?_, ?_, ⟨Event.checked string :: evs, ?_, ?_, ?_, ?_⟩, ?_⟩
    · rcases hres with h | ⟨h, _⟩ <;> simp [h]
    · rcases hres with h | ⟨h, _⟩
      · exact Or.inr h
      · exact Or.inl h
    · rw [ht]; simp [State.push_eq]
    · exact reads_after_check_from_cons (by simp)
        (reads_after_check_from_mono hr (by intro a ha; right; rw [ha]))
    · intro a ha
      simp only [List.mem_cons, Event.checked.injEq] at ha
      rcases ha with rfl | ha
      · exact hv
      · exact hck a ha
    · intro hret
      rcases hres with h | ⟨_, n, _, hn2, hn3, hn4⟩
      · rw [h] at hret; exact absurd hret (by simp)
      · refine ⟨n, by simpa [State.push_eq] using hn2,
          fun i hi => by simpa [State.push_eq] using hn3 i hi, ?_⟩
        intro i hi
        by_cases hi0 : i = 0
        · subst hi0; simp
        · exact List.mem_cons_of_mem _ (hn4 i (by omega) hi)
    · intro e he1 he2 hall hpage
      have hne : valid_addr E e = false := by simp [valid_addr, hpage]
      have hlt : string < e := by
        rcases Nat.lt_or_ge string e with h | h
        · exact h
        · have : e = string := by omega
          rw [this, hv] at hne
          exact absurd hne (by simp)
      exact valid_string_loop_runs_off E WORD string e _ hlt he2 (by omega)
        (fun a ha1 ha2 => by simpa [State.push_eq] using (hall a ha1 ha2).2)
        (fun a ha1 ha2 => (hall a (by omega) ha2).1) hne
  · have hv2 : valid_addr E string = false := by simpa using hv
    have hstep : valid_string E string s = exit (-1) s := by
      simp [valid_string, valid_ptr_apply, hv2]
    rw [hstep]
    refine ⟨by simp [exit_stopped], Or.inr rfl, ⟨exit_events (-1) s, exit_trace _ _, ?_, ?_, ?_⟩,
      fun _ _ _ _ _ => rfl⟩
    · exact reads_after_check_from_no_reads (exit_events_no_read _ _)
    · intro a ha; exact absurd ha (exit_events_no_checked _ _ a)
    · intro h; rw [exit_stopped] at h; exact absurd h (by simp)

/-- C4, at a concrete mapping: the three bytes `AAA` at the end of the only
mapped page, followed by an unmapped page. -/
theorem valid_string_safe_witness :
    (valid_string sample_env 0x08049FFD (sample_state.set_mem fun _ => 65)).stopped
      = some (Stop.exit (-1)) :=
  (valid_string_safe sample_env 0x08049FFD (sample_state.set_mem fun _ => 65)
    (by decide)).2.2.2 0x0804A000 (by decide) (by decide)
    (by
      intro a h1 h2
      have ha : a / 4096 = 0x08049 := by omega
      refine ⟨?_, by show (65 : Nat) % 256 ≠ 0; decide⟩
      simp only [valid_addr, is_user_vaddr, sample_env, USER_VADDR_BOUND, Bool.and_eq_true,
        decide_eq_true_eq]
      omega)
    (by decide)

/-- The loop of `valid_buf` returns exactly when every address it visits is
valid, and otherwise ends in `exit (-1)`. -/
theorem valid_buf_from_spec (E : Env) (buf : Nat) (n : Nat) :
    ∀ (i : Nat) (s : State),
    ((valid_buf_from E buf n i s).stopped = none
        ↔ ∀ j, j < n → valid_addr E ((buf + (i + j)) % WORD) = true)
    ∧ ((valid_buf_from E buf n i s).stopped = none
        ∨ (valid_buf_from E buf n i s).stopped = some (Stop.exit (-1))) := by
  induction n with
  | zero =>
    intro i s
    simp [valid_buf_from, Outcome.stopped]
  | succ n ih =>
    intro i s
    by_cases hv : valid_addr E ((buf + i) % WORD) = true
    · have hstep : valid_buf_from E buf (n + 1) i s
          = valid_buf_from E buf n (i + 1) (s.push (Event.checked ((buf + i) % WORD))) := by
        simp [valid_buf_from, valid_ptr_apply, hv]
      rw [hstep]
      obtain ⟨h1, h2⟩ := ih (i + 1) (s.push (Event.checked ((buf + i) % WORD)))
      refine ⟨?_, h2⟩
      rw [h1]
      constructor
      · intro h j hj
        cases j with
        | zero => simpa using hv
        | succ j =>
          have := h j (by omega)
          have e : buf + (i + 1 + j) = buf + (i + (j + 1)) := by omega
          rwa [e] at this
      · intro h j hj
        have := h (j + 1) (by omega)
        have e : buf + (i + 1 + j) = buf + (i + (j + 1)) := by omega
        rwa [e]
    · have hv2 : valid_addr E ((buf + i) % WORD) = false := by simpa using hv
      have hstep : valid_buf_from E buf (n + 1) i s = exit (-1) s := by
        simp [valid_buf_from, valid_ptr_apply, hv2]
      rw [hstep]
      refine ⟨?_, Or.inr rfl⟩
      simp only [exit_stopped, reduceCtorEq, false_iff, not_forall]
      exact ⟨0, by omega, by simpa using hv⟩

/-- C5: for a 32-bit start address and a kernel/user split inside the 32-bit
range, `valid_buf (buf, size)` returns exactly when every address `buf + i`
with `i < size` is below the split, strictly above `0x08048000` and mapped;
in every other case the process ends through `exit (-1)`. -/
theorem valid_buf_iff (E : Env) (buf size : Nat) (s : State)
    (hE : E.phys_base ≤ WORD) (hb : buf < WORD) :
    ((valid_buf E buf size s).stopped = none
        ↔ ∀ i, i < size →
            buf + i < E.phys_base ∧ 0x08048000 < buf + i ∧ E.pagedir_get_page (buf + i) = true)
    ∧ ((valid_buf E buf size s).stopped = none
        ∨ (valid_buf E buf size s).stopped = some (Stop.exit (-1))) := by
  obtain ⟨h1, h2⟩ := valid_buf_from_spec E buf size 0 s
  refine ⟨?_, h2⟩
  unfold valid_buf
  rw [h1]
  constructor
  · intro h
    have hno : ∀ i, i < size → buf + i < WORD := by
      intro i
      induction i with
      | zero => intro _; simpa using hb
      | succ i ih =>
        intro hi
        have hprev := ih (by omega)
        by_contra hge
        have h0 : (buf + (0 + (i + 1))) % WORD = 0 := by
          have : buf + (0 + (i + 1)) = WORD := by omega
          rw [this]; exact Nat.mod_self _
        have hv := h (i + 1) hi
        rw [h0] at hv
        exact absurd (valid_addr_pos hv) (by omega)
    intro i hi
    have hv := h i hi
    have e : (buf + (0 + i)) % WORD = buf + i := by
      rw [Nat.zero_add]; exact Nat.mod_eq_of_lt (hno i hi)
    rw [e] at hv
    simpa [valid_addr, is_user_vaddr, USER_VADDR_BOUND, and_assoc] using hv
  · intro h j hj
    obtain ⟨a1, a2, a3⟩ := h j hj
    have e : (buf + (0 + j)) % WORD = buf + j := by
      rw [Nat.zero_add]; exact Nat.mod_eq_of_lt (by omega)
    rw [e]
    simp [valid_addr, is_user_vaddr, USER_VADDR_BOUND, a1, a3]
    omega

/-- C5, at a concrete mapping and a four-byte buffer. -/
theorem valid_buf_iff_witness :
    (valid_buf sample_env 0x08049000 4 sample_state).stopped = none
      ↔ ∀ i, i < 4 → 0x08049000 + i < sample_env.phys_base ∧ 0x08048000 < 0x08049000 + i
          ∧ sample_env.pagedir_get_page (0x08049000 + i) = true :=
  (valid_buf_iff sample_env 0x08049000 4 sample_state (by decide) (by decide)).1

/-! ## Evaluations at concrete inputs -/

/-- C1: in a process whose table holds only handle 2, the handle 3 matches no
entry; `filesize (3)`, `tell (3)`, `read (3, ..)` and `write (3, ..)` do not
return `-1`: `file_ptr` reaches its `thread_exit ()` (line 337) and control
never comes back to the caller.  With an empty table the same calls return
`-1`. -/
theorem bad_handle_in_nonempty_table_ends_thread :
    (filesize sample_env 3 sample_state).stopped = some Stop.thread_exit
    ∧ (filesize sample_env 3 sample_state).value = none
    ∧ (tell sample_env 3 sample_state).stopped = some Stop.thread_exit
    ∧ (read sample_env 3 0x08049000 1 sample_state).stopped = some Stop.thread_exit
    ∧ (write sample_env 3 0x08049000 1 sample_state).stopped = some Stop.thread_exit
    ∧ (filesize sample_env 3 (sample_state.set_fd_entries [])).value = some (-1)
    ∧ (tell sample_env 3 (sample_state.set_fd_entries [])).value = some (to_unsigned (-1))
    ∧ (read sample_env 3 0x08049000 1 (sample_state.set_fd_entries [])).value = some (-1)
    ∧ (write sample_env 3 0x08049000 1 (sample_state.set_fd_entries [])).value = some (-1) := by
  decide

/-- C2: the lock is free before the call; `filesize`, `read`, `write`, `seek`
and `tell` on a handle that is missing from a non-empty table end in the
`thread_exit ()` of `file_ptr` with `filesys_mutex` still held. -/
theorem bad_handle_leaves_lock_held :
    sample_state.filesys_mutex = false
    ∧ (filesize sample_env 3 sample_state).stopped = some Stop.thread_exit
    ∧ (filesize sample_env 3 sample_state).state.filesys_mutex = true
    ∧ (read sample_env 3 0x08049000 1 sample_state).state.filesys_mutex = true
    ∧ (write sample_env 3 0x08049000 1 sample_state).state.filesys_mutex = true
    ∧ (seek 3 0 sample_state).stopped = some Stop.thread_exit
    ∧ (seek 3 0 sample_state).state.filesys_mutex = true
    ∧ (tell sample_env 3 sample_state).state.filesys_mutex = true := by
  decide

/-- C3: a `close` trap with the unaligned stack pointer `0x08049ff9`.  The
argument word occupies `0x08049ffd .. 0x0804a000`; `parse_args` checks only
its first byte, so the byte at `0x0804a000`, which lies in an unmapped page
and fails the validator, is read without a check: the process is not ended
through `exit (-1)` before that read.  (What the load of an unmapped byte
does to the kernel is decided outside `syscall.c`; the trace records it as
a read and goes on.) -/
theorem unaligned_argument_word_read_unchecked :
    (syscall_handler sample_env 0x08049FF9 (sample_state.set_mem close_trap_mem)).stopped = none
    ∧ (syscall_handler sample_env 0x08049FF9 (sample_state.set_mem close_trap_mem)).state.trace
        = [Event.checked 0x08049FF9, Event.read 0x08049FF9, Event.read 0x08049FFA,
           Event.read 0x08049FFB, Event.read 0x08049FFC, Event.checked 0x08049FFD,
           Event.read 0x08049FFD, Event.read 0x08049FFE, Event.read 0x08049FFF,
           Event.read 0x0804A000, Event.thread_yield]
    ∧ valid_addr sample_env 0x0804A000 = false
    ∧ ¬ reads_after_check
        (syscall_handler sample_env 0x08049FF9 (sample_state.set_mem close_trap_mem)).state.trace := by
  have ht : (syscall_handler sample_env 0x08049FF9
      (sample_state.set_mem close_trap_mem)).state.trace
        = [Event.checked 0x08049FF9, Event.read 0x08049FF9, Event.read 0x08049FFA,
           Event.read 0x08049FFB, Event.read 0x08049FFC, Event.checked 0x08049FFD,
           Event.read 0x08049FFD, Event.read 0x08049FFE, Event.read 0x08049FFF,
           Event.read 0x0804A000, Event.thread_yield] := by decide
  refine ⟨by decide, ht, by decide, ?_⟩
  intro h
  rw [ht] at h
  have h2 := h [Event.checked 0x08049FF9, Event.read 0x08049FF9, Event.read 0x08049FFA,
           Event.read 0x08049FFB, Event.read 0x08049FFC, Event.checked 0x08049FFD,
           Event.read 0x08049FFD, Event.read 0x08049FFE, Event.read 0x08049FFF]
    0x0804A000 [Event.thread_yield] rfl
  simp at h2

/-- C6: a `create` trap whose path `"a"` is a mapped NUL-terminated string
(`valid_string` accepts it) and whose size argument is 3.  The dispatcher
also runs `valid_buf (path, size)` (line 62); the third byte after the path
start is in an unmapped page, so the process ends through `exit (-1)`,
`filesys_create` is never called and `eax` keeps its old value. -/
theorem create_rejects_size_beyond_path_page :
    (valid_string sample_env 0x08049FFE (sample_state.set_mem create_trap_mem)).stopped = none
    ∧ (syscall_handler sample_env 0x08049F00 (sample_state.set_mem create_trap_mem)).stopped
        = some (Stop.exit (-1))
    ∧ (syscall_handler sample_env 0x08049F00 (sample_state.set_mem create_trap_mem)).state.trace
        = [Event.checked 0x08049F00, Event.read 0x08049F00, Event.read 0x08049F01,
           Event.read 0x08049F02, Event.read 0x08049F03, Event.checked 0x08049F04,
           Event.read 0x08049F04, Event.read 0x08049F05, Event.read 0x08049F06,
           Event.read 0x08049F07, Event.checked 0x08049F08, Event.read 0x08049F08,
           Event.read 0x08049F09, Event.read 0x08049F0A, Event.read 0x08049F0B,
           Event.checked 0x08049FFE, Event.checked 0x08049FFE, Event.checked 0x08049FFF,
           Event.printf_exit (-1), Event.file_close 9, Event.free_child 6, Event.free_child 7,
           Event.file_close 70, Event.free_file 2, Event.thread_exit]
    ∧ (syscall_handler sample_env 0x08049F00 (sample_state.set_mem create_trap_mem)).state.eax
        = sample_state.eax := by
  decide

/-! ## The descriptor table -/

theorem wrap_int_eq (x : Int) (h1 : -2147483648 ≤ x) (h2 : x ≤ 2147483647) :
    wrap_int x = x := by
  unfold wrap_int to_int to_unsigned WORD
  norm_num
  split <;> omega

/-- What `file_ptr_loop` does, by the first entry with the handle. -/
theorem file_ptr_loop_eq (fd : Int) (l : List file_record) (s : State) :
    file_ptr_loop fd l s = match l.find? (fun r => decide (r.fd = fd)) with
      | some r => Outcome.ret (some r.cfile) s
      | none => Outcome.stop Stop.thread_exit (s.push Event.thread_exit) := by
  induction l with
  | nil => rfl
  | cons r rest ih =>
    by_cases h : r.fd = fd
    · simp [file_ptr_loop, h]
    · simp [file_ptr_loop, h, ih]

/-- The three ways `file_ptr` ends. -/
theorem file_ptr_cases (fd : Int) (s : State) :
    file_ptr fd s = Outcome.ret none s
    ∨ (∃ f, file_ptr fd s = Outcome.ret (some f) s)
    ∨ file_ptr fd s = Outcome.stop Stop.thread_exit (s.push Event.thread_exit) := by
  unfold file_ptr
  simp only [bind_apply, get, and_then_ret]
  by_cases he : s.fd_entries.isEmpty = true
  · left; simp [he]
  · right
    simp only [he, Bool.false_eq_true, if_false, file_ptr_loop_eq]
    cases s.fd_entries.find? (fun r => decide (r.fd = fd)) with
    | none => right; rfl
    | some r => left; exact ⟨r.cfile, rfl⟩

/-- What `open` returns and what it does to the table. -/
theorem sys_open_spec (E : Env) (file : Nat) (s : State) :
    (sys_open E file s).stopped = none
    ∧ (open_succeeds E file = false →
        (sys_open E file s).value = some (-1)
        ∧ (sys_open E file s).state.fd_entries = s.fd_entries
        ∧ (sys_open E file s).state.total_fd = s.total_fd)
    ∧ (∀ f, E.malloc = true → E.filesys_open file = some f →
        (sys_open E file s).value = some s.total_fd
        ∧ (sys_open E file s).state.fd_entries = s.fd_entries ++ [⟨s.total_fd, f⟩]
        ∧ (sys_open E file s).state.total_fd = wrap_int (s.total_fd + 1)) := by
  unfold sys_open open_succeeds
  cases hm : E.malloc <;> cases hf : E.filesys_open file <;>
    simp [lock_acquire, lock_release, emit, get, set, Outcome.stopped, Outcome.value,
      Outcome.state, State.push_eq, State.set_mutex_eq, State.set_total_fd_eq,
      State.set_fd_entries_eq, hf]

theorem close_loop_sublist (fd : Int) (l : List file_record) :
    (close_loop fd l).1.Sublist l := by
  induction l with
  | nil => simp [close_loop]
  | cons r rest ih =>
    by_cases h : r.fd = fd
    · simp [close_loop, h]
    · simp [close_loop, h, ih]

/-- What `close` does to the table. -/
theorem close_spec (fd : Int) (s : State) :
    (close fd s).stopped = none
    ∧ (close fd s).state.fd_entries = (close_loop fd s.fd_entries).1
    ∧ (close fd s).state.total_fd = s.total_fd := by
  simp [close, lock_acquire, lock_release, get, set, Outcome.stopped, Outcome.state,
    State.push_all_eq, State.set_mutex_eq, State.set_fd_entries_eq]
/-- The console loop of `read` makes `n` calls of `input_getc` and counts them. -/
theorem read_console_eq (n bytesRead : Nat) (s : State) (h : bytesRead < WORD) :
    read_console n bytesRead s
      = Outcome.ret ((bytesRead + n) % WORD)
          (s.push_all (List.replicate n Event.input_getc)) := by
  induction n generalizing bytesRead s with
  | zero =>
    cases s
    simp [read_console, State.push_all_eq, Nat.mod_eq_of_lt h]
  | succ n ih =>
    simp only [read_console, bind_apply, emit, and_then_ret]
    rw [ih _ _ (Nat.mod_lt _ (by decide))]
    have e : ((bytesRead + 1) % WORD + n) % WORD = (bytesRead + (n + 1)) % WORD := by
      rw [Nat.add_mod, Nat.mod_mod, ← Nat.add_mod]
      congr 1
      omega
    rw [e]
    simp [State.push_eq, State.push_all_eq, List.replicate_succ]

/-- The operations that only look a handle up leave the table and the counter
as they were, whether they return or not. -/
theorem lookup_ops_keep_table (E : Env) (s : State) :
    (∀ fd, (filesize E fd s).state.fd_entries = s.fd_entries
        ∧ (filesize E fd s).state.total_fd = s.total_fd)
    ∧ (∀ fd buf len, (read E fd buf len s).state.fd_entries = s.fd_entries
        ∧ (read E fd buf len s).state.total_fd = s.total_fd)
    ∧ (∀ fd buf len, (write E fd buf len s).state.fd_entries = s.fd_entries
        ∧ (write E fd buf len s).state.total_fd = s.total_fd)
    ∧ (∀ fd pos, (seek fd pos s).state.fd_entries = s.fd_entries
        ∧ (seek fd pos s).state.total_fd = s.total_fd)
    ∧ (∀ fd, (tell E fd s).state.fd_entries = s.fd_entries
        ∧ (tell E fd s).state.total_fd = s.total_fd) := by
  refine ⟨?_, ?_, ?_, ?_, ?_⟩
  · intro fd
    unfold filesize
    simp only [bind_apply, lock_acquire, and_then_ret]
    rcases file_ptr_cases fd (s.set_mutex true) with h | ⟨f, h⟩ | h <;> rw [h] <;>
      simp [h, lock_release, emit, Outcome.state, State.push_eq, State.set_mutex_eq]
  · intro fd buf len
    unfold read
    simp only [bind_apply, lock_acquire, and_then_ret]
    by_cases h1 : fd = 1
    · simp [h1, lock_release, Outcome.state, State.set_mutex_eq]
    · by_cases h0 : fd = 0
      · subst h0
        simp [read_console_eq _ 0 _ (by decide : 0 < WORD), lock_release, Outcome.state,
          State.set_mutex_eq, State.push_all_eq]
      · simp only [h1, if_false, ne_eq, h0, not_false_eq_true, if_true, bind_apply]
        rcases file_ptr_cases fd (s.set_mutex true) with h | ⟨f, h⟩ | h <;> rw [h] <;>
          simp [h, lock_release, emit, get, set, Outcome.state, State.push_eq,
            State.set_mutex_eq, State.set_mem_eq]
  · intro fd buf len
    unfold write
    simp only [bind_apply, lock_acquire, and_then_ret]
    by_cases h0 : fd = 0
    · simp [h0, lock_release, Outcome.state, State.set_mutex_eq]
    · by_cases h1 : fd = 1
      · simp [h1, lock_release, emit, Outcome.state, State.set_mutex_eq, State.push_eq]
      · simp only [h0, if_false, ne_eq, h1, not_false_eq_true, if_true, bind_apply]
        rcases file_ptr_cases fd (s.set_mutex true) with h | ⟨f, h⟩ | h <;> rw [h] <;>
          simp [h, lock_release, emit, Outcome.state, State.push_eq, State.set_mutex_eq]
  · intro fd pos
    unfold seek
    simp only [bind_apply, lock_acquire, and_then_ret]
    rcases file_ptr_cases fd (s.set_mutex true) with h | ⟨f, h⟩ | h <;> rw [h] <;>
      simp [h, lock_release, emit, Outcome.state, State.push_eq, State.set_mutex_eq]
  · intro fd
    unfold tell
    simp only [bind_apply, lock_acquire, and_then_ret]
    rcases file_ptr_cases fd (s.set_mutex true) with h | ⟨f, h⟩ | h <;> rw [h] <;>
      simp [h, lock_release, emit, Outcome.state, State.push_eq, State.set_mutex_eq]
/-- C8, as stated, fails at the end of the `int` range: with the counter at
`INT_MAX` a successful `open` stores the handle `INT_MAX` and wraps the
counter, so the new handle is not below the counter any more. -/
theorem fd_inv_lost_at_int_max :
    fd_inv full_counter_state
    ∧ (sys_open sample_env 0x08049000 full_counter_state).value = some 2147483647
    ∧ (sys_open sample_env 0x08049000 full_counter_state).state.total_fd = -2147483648
    ∧ ¬ fd_inv (sys_open sample_env 0x08049000 full_counter_state).state := by
  decide

theorem fd_inv_of_sublist {s s1 : State} (h : fd_inv s)
    (hl : s1.fd_entries.Sublist s.fd_entries) (ht : s1.total_fd = s.total_fd) :
    fd_inv s1 := by
  refine ⟨h.1.sublist (hl.map _), ?_⟩
  intro r hr
  rw [ht]
  exact h.2 r (hl.subset hr)

theorem fd_inv_of_same {s s1 : State} (h : fd_inv s)
    (hl : s1.fd_entries = s.fd_entries ∧ s1.total_fd = s.total_fd) : fd_inv s1 :=
  fd_inv_of_sublist h (by rw [hl.1]) hl.2

/-- C8 (amended): handle uniqueness together with "every handle is below the
counter" is kept in every state by `close`, `filesize`, `read`, `write`,
`seek`, `tell` and by an `open` that fails (the allocation fails or the
filesystem open returns no file); it is kept by an `open` that succeeds in
every state whose counter is an `int` below `INT_MAX`. -/
theorem fd_inv_preserved (E : Env) (s : State) (h : fd_inv s) :
    (∀ file, (E.malloc = false ∨ E.filesys_open file = none) →
      fd_inv (sys_open E file s).state)
    ∧ (∀ file f, E.malloc = true → E.filesys_open file = some f →
        -2147483648 ≤ s.total_fd → s.total_fd < 2147483647 →
        fd_inv (sys_open E file s).state)
    ∧ (∀ fd, fd_inv (close fd s).state)
    ∧ (∀ fd, fd_inv (filesize E fd s).state)
    ∧ (∀ fd buf len, fd_inv (read E fd buf len s).state)
    ∧ (∀ fd buf len, fd_inv (write E fd buf len s).state)
    ∧ (∀ fd pos, fd_inv (seek fd pos s).state)
    ∧ (∀ fd, fd_inv (tell E fd s).state) := by
  obtain ⟨k1, k2, k3, k4, k5⟩ := lookup_ops_keep_table E s
  refine ⟨?_, ?_, ?_, fun fd => fd_inv_of_same h (k1 fd),
    fun fd buf len => fd_inv_of_same h (k2 fd buf len),
    fun fd buf len => fd_inv_of_same h (k3 fd buf len),
    fun fd pos => fd_inv_of_same h (k4 fd pos), fun fd => fd_inv_of_same h (k5 fd)⟩
  · intro file hfailed
    obtain ⟨_, hfail, _⟩ := sys_open_spec E file s
    have hs2 : open_succeeds E file = false := by
      rcases hfailed with hx | hx <;> simp [open_succeeds, hx]
    obtain ⟨_, he, ht⟩ := hfail hs2
    exact fd_inv_of_same h ⟨he, ht⟩
  · intro file f hm hf hlo hhi
    obtain ⟨_, _, hok⟩ := sys_open_spec E file s
    obtain ⟨_, he, ht⟩ := hok f hm hf
    rw [wrap_int_eq _ (by omega) (by omega)] at ht
    refine ⟨?_, ?_⟩
    · rw [he]
      simp only [handles, List.map_append, List.map_cons, List.map_nil]
      refine List.Nodup.append h.1 (by simp) ?_
      intro x hx hx2
      simp only [List.mem_singleton] at hx2
      obtain ⟨r, hr, rfl⟩ := List.mem_map.mp hx
      have := h.2 r hr
      omega
    · intro r hr
      rw [he] at hr
      rw [ht]
      rcases List.mem_append.mp hr with hr | hr
      · have := h.2 r hr
        omega
      · simp only [List.mem_singleton] at hr
        rw [hr]
        simp
  · intro fd
    obtain ⟨_, he, ht⟩ := close_spec fd s
    exact fd_inv_of_sublist h (by rw [he]; exact close_loop_sublist fd _) ht

/-- C8 (amended), at concrete processes: an `open` whose allocation fails
with the counter at `INT_MAX`, and a successful `open` in a process with one
open file and counter 3. -/
theorem fd_inv_preserved_witness :
    fd_inv (sys_open { sample_env with malloc := false } 0x08049000 full_counter_state).state
    ∧ fd_inv (sys_open sample_env 0x08049000 sample_state).state :=
  ⟨(fd_inv_preserved { sample_env with malloc := false } full_counter_state (by decide)).1
      0x08049000 (Or.inl rfl),
    (fd_inv_preserved sample_env sample_state (by decide)).2.1 0x08049000 77 rfl rfl
      (by decide) (by decide)⟩

/-- The log of a run of `open` and `close` calls: one entry per successful
`open`, handles strictly increasing and at least the counter at the start,
and no handle among those live when it was returned. -/
theorem run_calls_spec (calls : List FdCall) :
    ∀ s : State, 2 ≤ s.total_fd → (∀ r ∈ s.fd_entries, r.fd < s.total_fd) →
    s.total_fd + (successful_opens calls : Int) ≤ 2147483647 →
    (run_calls calls s).length = successful_opens calls
    ∧ ((run_calls calls s).map (·.1)).Pairwise (· < ·)
    ∧ ∀ p ∈ run_calls calls s, s.total_fd ≤ p.1 ∧ p.1 ∉ p.2 := by
  induction calls with
  | nil => intro s _ _ _; simp [run_calls, successful_opens]
  | cons c rest ih =>
    intro s h2 hlive hno
    cases c with
    | close fd =>
      obtain ⟨hst, he, ht⟩ := close_spec fd s
      cases hres : close fd s with
      | stop r s1 => rw [hres] at hst; simp [Outcome.stopped] at hst
      | ret u s1 =>
        rw [hres] at he ht
        simp only [Outcome.state] at he ht
        have hlive1 : ∀ r ∈ s1.fd_entries, r.fd < s1.total_fd := by
          intro r hr
          rw [he] at hr
          rw [ht]
          exact hlive r ((close_loop_sublist fd _).subset hr)
        have := ih s1 (by omega) hlive1 (by simpa [successful_opens, ht] using hno)
        simpa [run_calls, hres, successful_opens, ht] using this
    | sys_open E file =>
      obtain ⟨hst, hfail, hok⟩ := sys_open_spec E file s
      cases hres : sys_open E file s with
      | stop r s1 => rw [hres] at hst; simp [Outcome.stopped] at hst
      | ret hd s1 =>
        rw [hres] at hfail hok
        simp only [Outcome.state, Outcome.value, Option.some.injEq] at hfail hok
        by_cases hs : open_succeeds E file = true
        · have hm : E.malloc = true := by
            simp only [open_succeeds, Bool.and_eq_true] at hs; exact hs.1
          obtain ⟨f, hf⟩ : ∃ f, E.filesys_open file = some f := by
            simp only [open_succeeds, Bool.and_eq_true] at hs
            exact Option.isSome_iff_exists.mp hs.2
          obtain ⟨hv, he, ht⟩ := hok f hm hf
          have hcount : (successful_opens (FdCall.sys_open E file :: rest) : Int)
              = 1 + successful_opens rest := by
            simp [successful_opens, hs]
          rw [hcount] at hno
          rw [wrap_int_eq _ (by omega) (by omega)] at ht
          have hlive1 : ∀ r ∈ s1.fd_entries, r.fd < s1.total_fd := by
            intro r hr
            rw [he] at hr
            rw [ht]
            rcases List.mem_append.mp hr with hr | hr
            · have := hlive r hr
              omega
            · simp only [List.mem_singleton] at hr
              rw [hr]
              simp
          obtain ⟨i1, i2, i3⟩ := ih s1 (by omega) hlive1 (by omega)
          have hrun : run_calls (FdCall.sys_open E file :: rest) s
              = (hd, handles s.fd_entries) :: run_calls rest s1 := by
            simp [run_calls, hres, hs]
          rw [hrun]
          refine ⟨by simp [i1, successful_opens, hs]; omega, ?_, ?_⟩
          · simp only [List.map_cons, List.pairwise_cons]
            refine ⟨?_, i2⟩
            intro x hx
            obtain ⟨p, hp, rfl⟩ := List.mem_map.mp hx
            have := (i3 p hp).1
            omega
          · intro p hp
            rcases List.mem_cons.mp hp with rfl | hp
            · refine ⟨by simp [hv], ?_⟩
              simp only [handles]
              intro hmem
              obtain ⟨r, hr, hrfd⟩ := List.mem_map.mp hmem
              have := hlive r hr
              omega
            · have := i3 p hp
              exact ⟨by omega, this.2⟩
        · have hs2 : open_succeeds E file = false := by simpa using hs
          obtain ⟨_, he, ht⟩ := hfail hs2
          have hlive1 : ∀ r ∈ s1.fd_entries, r.fd < s1.total_fd := by
            intro r hr
            rw [he] at hr
            rw [ht]
            exact hlive r hr
          have := ih s1 (by omega) hlive1 (by simpa [successful_opens, hs2, ht] using hno)
          simpa [run_calls, hres, successful_opens, hs2, ht] using this

/-- C7: take a process whose counter is at least 2 and larger than every
handle in its table (at process start the table is empty), and any sequence of
`open` and `close` calls during which the counter stays within `int`.  Every
call returns; the handles returned by the opens that succeed are strictly
increasing, none is 0 or 1, and none equals a handle that is in the table
when that open is called. -/
theorem open_handles_increasing_and_fresh (calls : List FdCall) (s : State)
    (h2 : 2 ≤ s.total_fd) (hlive : ∀ r ∈ s.fd_entries, r.fd < s.total_fd)
    (hno : s.total_fd + (successful_opens calls : Int) ≤ 2147483647) :
    (run_calls calls s).length = successful_opens calls
    ∧ ((run_calls calls s).map (·.1)).Pairwise (· < ·)
    ∧ ∀ p ∈ run_calls calls s, p.1 ≠ 0 ∧ p.1 ≠ 1 ∧ p.1 ∉ p.2 := by
  obtain ⟨a1, a2, a3⟩ := run_calls_spec calls s h2 hlive hno
  refine ⟨a1, a2, ?_⟩
  intro p hp
  have := a3 p hp
  exact ⟨by omega, by omega, this.2⟩

/-- C7, at a concrete process: open, close the old handle 2, open again. -/
theorem open_handles_increasing_and_fresh_witness :
    (run_calls [FdCall.sys_open sample_env 0x08049000, FdCall.close 2,
        FdCall.sys_open sample_env 0x08049000] sample_state).length = 2
    ∧ ((run_calls [FdCall.sys_open sample_env 0x08049000, FdCall.close 2,
        FdCall.sys_open sample_env 0x08049000] sample_state).map (·.1)).Pairwise (· < ·)
    ∧ ∀ p ∈ run_calls [FdCall.sys_open sample_env 0x08049000, FdCall.close 2,
        FdCall.sys_open sample_env 0x08049000] sample_state, p.1 ≠ 0 ∧ p.1 ≠ 1 ∧ p.1 ∉ p.2 :=
  open_handles_increasing_and_fresh
    [FdCall.sys_open sample_env 0x08049000, FdCall.close 2,
      FdCall.sys_open sample_env 0x08049000] sample_state (by decide) (by decide) (by decide)

/-! ## `close`, `open`, lookup and the reserved handles -/

theorem close_loop_no_match (fd : Int) (l : List file_record) (h : ∀ r ∈ l, r.fd ≠ fd) :
    close_loop fd l = (l, []) := by
  induction l with
  | nil => rfl
  | cons r rest ih =>
    have h1 : r.fd ≠ fd := h r (by simp)
    have h2 := ih (fun x hx => h x (List.mem_cons_of_mem _ hx))
    simp [close_loop, h1, h2]

theorem close_loop_first_match (fd : Int) (pre post : List file_record) (r : file_record)
    (hpre : ∀ x ∈ pre, x.fd ≠ fd) (hr : r.fd = fd) :
    close_loop fd (pre ++ r :: post)
      = (pre ++ post, [Event.file_close r.cfile, Event.free_file r.fd]) := by
  induction pre with
  | nil => simp [close_loop, hr]
  | cons x rest ih =>
    have h1 : x.fd ≠ fd := hpre x (by simp)
    have h2 := ih (fun y hy => hpre y (List.mem_cons_of_mem _ hy))
    simp [close_loop, h1, h2]

theorem close_eq (fd : Int) (s : State) :
    close fd s = Outcome.ret ()
      (((s.set_fd_entries (close_loop fd s.fd_entries).1).push_all
        (close_loop fd s.fd_entries).2).set_mutex false) := by
  cases s
  rfl

/-- C11: when no entry of the table has the handle, `close (fd)` returns to
its caller and changes nothing but the lock, which it leaves released: the
descriptor list (entries and order), the counter and the trace are as before,
so no file was closed. -/
theorem close_missing_handle_is_noop (fd : Int) (s : State)
    (h : ∀ r ∈ s.fd_entries, r.fd ≠ fd) :
    close fd s = Outcome.ret () (s.set_mutex false)
    ∧ (close fd s).stopped = none
    ∧ (close fd s).state.fd_entries = s.fd_entries
    ∧ (close fd s).state.total_fd = s.total_fd
    ∧ (close fd s).state.trace = s.trace
    ∧ closed_files ((close fd s).state.trace.drop s.trace.length) = [] := by
  have e : close fd s = Outcome.ret () (s.set_mutex false) := by
    rw [close_eq, close_loop_no_match fd _ h]
    cases s
    simp [State.set_fd_entries_eq, State.push_all_eq, State.set_mutex_eq]
  rw [e]
  simp [Outcome.stopped, Outcome.state, State.set_mutex_eq, closed_files]

/-- C11, at a concrete process: handle 3 is not in the table of `sample_state`. -/
theorem close_missing_handle_is_noop_witness :
    close 3 sample_state = Outcome.ret () (sample_state.set_mutex false) :=
  (close_missing_handle_is_noop 3 sample_state (by decide)).1

theorem split_at_handle (fd : Int) (l : List file_record) (r : file_record)
    (hn : (handles l).Nodup) (hr : r ∈ l) (hfd : r.fd = fd) :
    ∃ pre post, l = pre ++ r :: post ∧ (∀ x ∈ pre, x.fd ≠ fd) ∧ (∀ x ∈ post, x.fd ≠ fd) := by
  obtain ⟨pre, post, rfl⟩ := List.append_of_mem hr
  refine ⟨pre, post, rfl, ?_, ?_⟩
  · intro x hx hxe
    simp only [handles, List.map_append, List.map_cons] at hn
    have hd := (List.nodup_append.mp hn).2.2
    exact hd (List.mem_map_of_mem _ hx) (by simp [hxe, hfd])
  · intro x hx hxe
    simp only [handles, List.map_append, List.map_cons] at hn
    have h2 := (List.nodup_append.mp hn).2.1
    have h3 := (List.nodup_cons.mp h2).1
    exact h3 (by rw [hfd, ← hxe]; exact List.mem_map_of_mem _ hx)

/-- C12: with pairwise distinct handles and an entry `r` of the table whose
handle is `fd`, `close (fd)` returns, makes exactly one `file_close` call, on
the file of `r`, and frees `r`; the list afterwards is the old list with `r`
taken out (the entries before and after it keep their content and order), the
counter is unchanged and `fd` is not a handle of the table any more. -/
theorem close_removes_exactly_one (fd : Int) (s : State) (r : file_record)
    (hn : (handles s.fd_entries).Nodup) (hr : r ∈ s.fd_entries) (hfd : r.fd = fd) :
    (close fd s).stopped = none
    ∧ (∃ pre post, s.fd_entries = pre ++ r :: post
        ∧ (close fd s).state.fd_entries = pre ++ post)
    ∧ (close fd s).state.trace = s.trace ++ [Event.file_close r.cfile, Event.free_file r.fd]
    ∧ closed_files [Event.file_close r.cfile, Event.free_file r.fd] = [r.cfile]
    ∧ (close fd s).state.total_fd = s.total_fd
    ∧ fd ∉ handles (close fd s).state.fd_entries := by
  obtain ⟨pre, post, hl, hpre, hpost⟩ := split_at_handle fd _ r hn hr hfd
  have hloop := close_loop_first_match fd pre post r hpre hfd
  rw [← hl] at hloop
  rw [close_eq, hloop]
  refine ⟨rfl, ⟨pre, post, hl, ?_⟩, ?_, rfl, ?_, ?_⟩
  · simp [Outcome.state, State.set_fd_entries_eq, State.push_all_eq, State.set_mutex_eq]
  · simp [Outcome.state, State.set_fd_entries_eq, State.push_all_eq, State.set_mutex_eq]
  · simp [Outcome.state, State.set_fd_entries_eq, State.push_all_eq, State.set_mutex_eq]
  · simp only [Outcome.state, State.set_fd_entries_eq, State.push_all_eq, State.set_mutex_eq,
      handles, List.map_append, List.mem_append, List.mem_map, not_or, not_exists, not_and]
    exact ⟨fun x hx => hpre x hx, fun x hx => hpost x hx⟩

/-- C12, at a concrete process: closing the only handle, 2, of `sample_state`. -/
theorem close_removes_exactly_one_witness :
    (close 2 sample_state).state.trace
      = sample_state.trace ++ [Event.file_close 70, Event.free_file 2] :=
  (close_removes_exactly_one 2 sample_state ⟨2, 70⟩ (by decide) (by decide) rfl).2.2.1

/-- C13: `read (1, buf, len)` and `write (0, buf, len)` return `-1`; apart
from taking and releasing the lock they do nothing: the trace is unchanged
(no console input or output, no `file_read` or `file_write`), and user
memory, the descriptor table and the counter are as before. -/
theorem reserved_handle_misuse_fails (E : Env) (buf len : Nat) (s : State) :
    read E 1 buf len s = Outcome.ret (-1) (s.set_mutex false)
    ∧ write E 0 buf len s = Outcome.ret (-1) (s.set_mutex false)
    ∧ (s.set_mutex false).trace = s.trace
    ∧ (s.set_mutex false).mem = s.mem
    ∧ (s.set_mutex false).fd_entries = s.fd_entries
    ∧ (s.set_mutex false).total_fd = s.total_fd := by
  refine ⟨?_, ?_, rfl, rfl, rfl, rfl⟩
  · cases s; rfl
  · cases s; rfl

/-- C16, as stated, fails at the end of the `int` range: with the counter at
`INT_MAX` a successful `open` does not leave the counter one higher. -/
theorem open_counter_wraps_at_int_max :
    (sys_open sample_env 0x08049000 full_counter_state).value = some full_counter_state.total_fd
    ∧ (sys_open sample_env 0x08049000 full_counter_state).state.total_fd
        ≠ full_counter_state.total_fd + 1 := by
  decide

/-- C16 (amended): `open` always returns.  If the allocation fails or the
filesystem open returns no file, it returns `-1` and leaves the descriptor
list and the counter as they were.  If both succeed it returns the old counter
value and appends exactly one entry, that handle with the opened file, at the
end of the list; the counter is then one higher, provided it was an `int`
below `INT_MAX`. -/
theorem sys_open_effect (E : Env) (file : Nat) (s : State) :
    (sys_open E file s).stopped = none
    ∧ ((E.malloc = false ∨ E.filesys_open file = none) →
        (sys_open E file s).value = some (-1)
        ∧ (sys_open E file s).state.fd_entries = s.fd_entries
        ∧ (sys_open E file s).state.total_fd = s.total_fd)
    ∧ (∀ f, E.malloc = true → E.filesys_open file = some f →
        (sys_open E file s).value = some s.total_fd
        ∧ (sys_open E file s).state.fd_entries = s.fd_entries ++ [⟨s.total_fd, f⟩]
        ∧ (-2147483648 ≤ s.total_fd → s.total_fd < 2147483647 →
            (sys_open E file s).state.total_fd = s.total_fd + 1)) := by
  obtain ⟨h1, h2, h3⟩ := sys_open_spec E file s
  refine ⟨h1, ?_, ?_⟩
  · intro hfail
    apply h2
    rcases hfail with h | h <;> simp [open_succeeds, h]
  · intro f hm hf
    obtain ⟨a, b, c⟩ := h3 f hm hf
    refine ⟨a, b, ?_⟩
    intro hlo hhi
    rw [c, wrap_int_eq _ (by omega) (by omega)]

/-- C16 (amended), at a concrete process: a successful `open` with counter 3. -/
theorem sys_open_effect_witness :
    (sys_open sample_env 0x08049000 sample_state).value = some 3
    ∧ (sys_open sample_env 0x08049000 sample_state).state.fd_entries
        = sample_state.fd_entries ++ [⟨3, 77⟩]
    ∧ (sys_open sample_env 0x08049000 sample_state).state.total_fd = 3 + 1 :=
  have h := (sys_open_effect sample_env 0x08049000 sample_state).2.2 77 rfl rfl
  ⟨h.1, h.2.1, h.2.2 (by decide) (by decide)⟩

theorem file_ptr_eq (fd : Int) (s : State) :
    file_ptr fd s = if s.fd_entries.isEmpty then Outcome.ret none s
      else match s.fd_entries.find? (fun r => decide (r.fd = fd)) with
        | some r => Outcome.ret (some r.cfile) s
        | none => Outcome.stop Stop.thread_exit (s.push Event.thread_exit) := by
  unfold file_ptr
  simp only [bind_apply, get, and_then_ret]
  split
  · rfl
  · exact file_ptr_loop_eq fd _ s

/-- C17: in a state whose handles are pairwise distinct and below the
counter, after an `open` that succeeds with handle `h` and file `f`, the
lookup `file_ptr (h)` returns `f`, and for every handle `g` that was in the
table before, `file_ptr (g)` returns the same file as it did before. -/
theorem open_then_lookup (E : Env) (file f : Nat) (s : State) (hinv : fd_inv s)
    (hm : E.malloc = true) (hf : E.filesys_open file = some f) :
    (sys_open E file s).value = some s.total_fd
    ∧ (file_ptr s.total_fd (sys_open E file s).state).value = some (some f)
    ∧ ∀ g ∈ handles s.fd_entries,
        (file_ptr g (sys_open E file s).state).value = (file_ptr g s).value := by
  obtain ⟨hv, he, _⟩ := (sys_open_spec E file s).2.2 f hm hf
  refine ⟨hv, ?_, ?_⟩
  · rw [file_ptr_eq, he]
    have hnone : s.fd_entries.find? (fun r => decide (r.fd = s.total_fd)) = none := by
      rw [List.find?_eq_none]
      intro r hr
      have := hinv.2 r hr
      simp only [decide_eq_true_eq]
      omega
    simp [List.find?_append, hnone, Outcome.value]
  · intro g hg
    obtain ⟨r, hr, hrg⟩ := List.mem_map.mp hg
    rw [file_ptr_eq, file_ptr_eq, he]
    have hne : s.fd_entries ≠ [] := List.ne_nil_of_mem hr
    obtain ⟨x, hx⟩ : ∃ x, s.fd_entries.find? (fun r => decide (r.fd = g)) = some x := by
      cases hfind : s.fd_entries.find? (fun r => decide (r.fd = g)) with
      | some x => exact ⟨x, rfl⟩
      | none =>
        rw [List.find?_eq_none] at hfind
        exact absurd (by simpa using hrg) (hfind r hr)
    simp [List.find?_append, hx, hne, Outcome.value]

/-- C17, at a concrete process: `open` returns 3, and handle 2 still maps to
file 70. -/
theorem open_then_lookup_witness :
    (file_ptr 3 (sys_open sample_env 0x08049000 sample_state).state).value = some (some 77)
    ∧ (file_ptr 2 (sys_open sample_env 0x08049000 sample_state).state).value
        = (file_ptr 2 sample_state).value :=
  have h := open_then_lookup sample_env 0x08049000 77 sample_state (by decide) rfl rfl
  ⟨h.2.1, h.2.2 2 (by decide)⟩

/-- C19: for a length `n` below `2^31`, `read (0, buf, n)` returns `n` after
exactly `n` calls of `input_getc` and nothing else; the bytes are dropped:
user memory is what it was before the call. -/
theorem read_stdin_discards_input (E : Env) (buf n : Nat) (s : State) (hn : n < 2 ^ 31) :
    (read E 0 buf n s).value = some (n : Int)
    ∧ (read E 0 buf n s).state.trace = s.trace ++ List.replicate n Event.input_getc
    ∧ (read E 0 buf n s).state.mem = s.mem := by
  have e : read E 0 buf n s = Outcome.ret (to_int ((0 + n) % WORD))
      (((s.set_mutex true).push_all (List.replicate n Event.input_getc)).set_mutex false) := by
    simp [read, lock_acquire, lock_release, read_console_eq _ 0 _ (by decide : 0 < WORD)]
  rw [e]
  have hw : n % WORD = n := Nat.mod_eq_of_lt (by unfold WORD; omega)
  refine ⟨?_, ?_, ?_⟩
  · simp only [Outcome.value, Nat.zero_add, hw, to_int]
    rw [if_pos hn]
  · simp [Outcome.state, State.set_mutex_eq, State.push_all_eq]
  · simp [Outcome.state, State.set_mutex_eq, State.push_all_eq]

/-- C19, at a concrete call: five bytes requested from the console. -/
theorem read_stdin_discards_input_witness :
    (read sample_env 0 0x08049000 5 sample_state).value = some 5
    ∧ (read sample_env 0 0x08049000 5 sample_state).state.trace
        = sample_state.trace ++ List.replicate 5 Event.input_getc
    ∧ (read sample_env 0 0x08049000 5 sample_state).state.mem = sample_state.mem :=
  read_stdin_discards_input sample_env 0x08049000 5 sample_state (by decide)

/-! ## The dispatcher -/

theorem K_bind_assoc {α β γ : Type} (m : K α) (f : α → K β) (g : β → K γ) :
    (m >>= f) >>= g = m >>= fun a => f a >>= g := by
  funext s
  simp only [bind_apply]
  cases m s <;> rfl

theorem K_pure_bind {α β : Type} (a : α) (f : α → K β) : pure a >>= f = f a := rfl

/-- Each case of the `switch` is its validations followed by its handler call. -/
theorem dispatch_eq (E : Env) (esp n : Nat) :
    dispatch E esp n = checks_for E esp n >>= call_for E n := by
  unfold dispatch checks_for call_for
  by_cases h0 : n = SYS_HALT
  · simp only [h0, if_true, K_pure_bind]
  simp only [h0, if_false]
  by_cases h1 : n = SYS_EXIT
  · simp only [h1, if_true]
  simp only [h1, if_false]
  by_cases h2 : n = SYS_EXEC
  · simp only [h2, if_true, K_bind_assoc, K_pure_bind]
  simp only [h2, if_false]
  by_cases h3 : n = SYS_WAIT
  · simp only [h3, if_true]
  simp only [h3, if_false]
  by_cases h4 : n = SYS_CREATE
  · simp only [h4, if_true, K_bind_assoc, K_pure_bind]
  simp only [h4, if_false]
  by_cases h5 : n = SYS_REMOVE
  · simp only [h5, if_true, K_bind_assoc, K_pure_bind]
  simp only [h5, if_false]
  by_cases h6 : n = SYS_OPEN
  · simp only [h6, if_true, K_bind_assoc, K_pure_bind]
  simp only [h6, if_false]
  by_cases h7 : n = SYS_FILESIZE
  · simp only [h7, if_true]
  simp only [h7, if_false]
  by_cases h8 : n = SYS_READ
  · simp only [h8, if_true, K_bind_assoc, K_pure_bind]
  simp only [h8, if_false]
  by_cases h9 : n = SYS_WRITE
  · simp only [h9, if_true, K_bind_assoc, K_pure_bind]
  simp only [h9, if_false]
  by_cases h10 : n = SYS_SEEK
  · simp only [h10, if_true]
  simp only [h10, if_false]
  by_cases h11 : n = SYS_TELL
  · simp only [h11, if_true]
  simp only [h11, if_false]
  by_cases h12 : n = SYS_CLOSE
  · simp only [h12, if_true]
  simp only [h12, if_false, K_pure_bind]

/-- The dispatcher is its validations, then the handler call of the selected
case, then `thread_yield ()`. -/
theorem syscall_handler_eq (E : Env) (esp : Nat) :
    syscall_handler E esp
      = trap_checks E esp >>= fun na => call_for E na.1 na.2 >>= fun _ => emit Event.thread_yield := by
  unfold syscall_handler trap_checks
  simp only [K_bind_assoc, K_pure_bind, dispatch_eq]
theorem State.push_all_push_all (s : State) (a b : List Event) :
    (s.push_all a).push_all b = s.push_all (a ++ b) := by
  cases s
  simp [State.push_all_eq]

theorem State.push_eq_push_all (s : State) (e : Event) : s.push e = s.push_all [e] := rfl

theorem State.push_all_nil (s : State) : s.push_all [] = s := by
  cases s
  simp [State.push_all_eq]

theorem checks_at_pure {α : Type} (a : α) (s : State) {post : α → Prop} (h : post a) :
    checks_at (pure a : K α) s post :=
  ⟨[], by simp, Or.inl ⟨a, h, by rw [State.push_all_nil]; rfl⟩⟩

theorem checks_at_mono {α : Type} {m : K α} {s : State} {P Q : α → Prop}
    (h : checks_at m s P) (hpq : ∀ a, P a → Q a) : checks_at m s Q := by
  obtain ⟨evs, hp, h⟩ := h
  refine ⟨evs, hp, ?_⟩
  rcases h with ⟨a, ha, hr⟩ | h
  · exact Or.inl ⟨a, hpq a ha, hr⟩
  · exact Or.inr h

theorem checks_at_bind {α β : Type} {m : K α} {f : α → K β} {s : State}
    {P : α → Prop} {Q : β → Prop} (hm : checks_at m s P)
    (hf : ∀ a evs, P a → (∀ e ∈ evs, probe e) → checks_at (f a) (s.push_all evs) Q) :
    checks_at (m >>= f) s Q := by
  obtain ⟨evs, hp, h⟩ := hm
  rcases h with ⟨a, ha, hr⟩ | h
  · obtain ⟨evs2, hp2, h2⟩ := hf a evs ha hp
    refine ⟨evs ++ evs2, ?_, ?_⟩
    · intro e he
      rcases List.mem_append.mp he with he | he
      · exact hp e he
      · exact hp2 e he
    · rw [State.push_all_push_all] at h2
      simp only [bind_apply, hr, and_then_ret]
      exact h2
  · refine ⟨evs, hp, Or.inr ?_⟩
    simp only [bind_apply, h, exit_and_then]

theorem valid_ptr_checks (E : Env) (a : Nat) (s : State) :
    checks_at (valid_ptr E a) s (fun _ => valid_addr E a = true) := by
  by_cases hv : valid_addr E a = true
  · refine ⟨[Event.checked a], ?_, Or.inl ⟨(), hv, ?_⟩⟩
    · intro e he
      simp only [List.mem_singleton] at he
      exact ⟨a, Or.inl he⟩
    · rw [valid_ptr_apply, if_pos hv]
      rfl
  · refine ⟨[], by simp, Or.inr ?_⟩
    rw [valid_ptr_apply, if_neg hv, State.push_all_nil]

theorem deref_u8_checks (a : Nat) (s : State) :
    checks_at (deref_u8 a) s (fun c => c = s.mem a % 256) := by
  refine ⟨[Event.read a], ?_, Or.inl ⟨s.mem a % 256, rfl, rfl⟩⟩
  intro e he
  simp only [List.mem_singleton] at he
  exact ⟨a, Or.inr he⟩

theorem State.push_all_mem (s : State) (evs : List Event) : (s.push_all evs).mem = s.mem := rfl

theorem deref_u32_checks (a : Nat) (s : State) :
    checks_at (deref_u32 a) s (fun w => w = word_at s.mem a) := by
  unfold deref_u32
  refine checks_at_bind (deref_u8_checks a s) ?_
  intro b0 e0 h0 _
  refine checks_at_bind (deref_u8_checks _ _) ?_
  intro b1 e1 h1 _
  refine checks_at_bind (deref_u8_checks _ _) ?_
  intro b2 e2 h2 _
  refine checks_at_bind (deref_u8_checks _ _) ?_
  intro b3 e3 h3 _
  refine checks_at_pure _ _ ?_
  simp only [State.push_all_mem] at h1 h2 h3
  rw [h0, h1, h2, h3]
  rfl

theorem word_at_lt (mem : Nat → Nat) (a : Nat) : word_at mem a < WORD := by
  unfold word_at WORD
  have h0 := Nat.mod_lt (mem a) (by decide : 0 < 256)
  have h1 := Nat.mod_lt (mem ((a + 1) % 2 ^ 32)) (by decide : 0 < 256)
  have h2 := Nat.mod_lt (mem ((a + 2) % 2 ^ 32)) (by decide : 0 < 256)
  have h3 := Nat.mod_lt (mem ((a + 3) % 2 ^ 32)) (by decide : 0 < 256)
  omega

/-- The words `parse_args` hands back are those of the argument slots. -/
theorem parse_args_from_checks (E : Env) (esp : Nat) (n : Nat) :
    ∀ (i : Nat) (s : State), checks_at (parse_args_from E esp n i) s
      (fun args => args
        = (List.range n).map fun j => word_at s.mem ((esp + (i + j + 1) * 4) % WORD)) := by
  induction n with
  | zero =>
    intro i s
    exact checks_at_pure _ _ (by simp)
  | succ n ih =>
    intro i s
    unfold parse_args_from
    refine checks_at_bind (valid_ptr_checks E _ s) ?_
    intro _ e0 _ _
    refine checks_at_bind (deref_u32_checks _ _) ?_
    intro w e1 hw _
    refine checks_at_bind (ih (i + 1) _) ?_
    intro rest e2 hrest _
    refine checks_at_pure _ _ ?_
    simp only [State.push_all_mem] at hw hrest
    rw [hw, hrest, List.range_succ_eq_map, List.map_cons, List.map_map]
    simp only [Nat.add_zero, List.cons.injEq, true_and]
    apply List.map_congr_left
    intro j _
    simp only [Function.comp]
    have : i + 1 + j + 1 = i + (j + 1) + 1 := by omega
    rw [this]

theorem valid_buf_from_checks (E : Env) (buf : Nat) (n : Nat) :
    ∀ (i : Nat) (s : State), checks_at (valid_buf_from E buf n i) s (fun _ => True) := by
  induction n with
  | zero => intro i s; exact checks_at_pure _ _ trivial
  | succ n ih =>
    intro i s
    unfold valid_buf_from
    exact checks_at_bind (valid_ptr_checks E _ s) (fun _ _ _ _ => ih _ _)

theorem valid_string_loop_checks (E : Env) (fuel : Nat) :
    ∀ (string : Nat) (s : State), string < WORD → WORD - string ≤ fuel →
    checks_at (valid_string_loop E fuel string) s (fun _ => True) := by
  induction fuel with
  | zero => intro string s h1 h2; omega
  | succ fuel ih =>
    intro string s h1 h2
    unfold valid_string_loop
    refine checks_at_bind (deref_u8_checks string s) ?_
    intro c e0 hc _
    by_cases hz : c = 0
    · simp only [hz, ne_eq, not_true_eq_false, if_false]
      exact checks_at_pure _ _ trivial
    · simp only [ne_eq, hz, not_false_eq_true, if_true]
      refine checks_at_bind (valid_ptr_checks E _ _) ?_
      intro _ e1 hv _
      have hlt : string + 1 < WORD := by
        by_contra hge
        have h0 : (string + 1) % WORD = 0 := by
          have : string + 1 = WORD := by omega
          rw [this]; exact Nat.mod_self _
        rw [h0] at hv
        exact absurd (valid_addr_pos hv) (by omega)
      rw [Nat.mod_eq_of_lt hlt]
      exact ih _ _ hlt (by omega)

theorem valid_string_checks (E : Env) (string : Nat) (s : State) (h : string < WORD) :
    checks_at (valid_string E string) s (fun _ => True) := by
  unfold valid_string
  exact checks_at_bind (valid_ptr_checks E _ s)
    (fun _ _ _ _ => valid_string_loop_checks E WORD string _ h (by omega))
theorem parse_args_checks (E : Env) (esp k : Nat) (s : State) :
    checks_at (parse_args E esp k) s (fun args => args = slot_words s.mem esp k) := by
  unfold parse_args slot_words
  refine checks_at_mono (parse_args_from_checks E esp k 0 s) ?_
  intro args h
  rw [h]
  simp

theorem slot_words_getD_lt (mem : Nat → Nat) (esp k j : Nat) :
    (slot_words mem esp k).getD j 0 < WORD := by
  unfold slot_words
  rw [List.getD_eq_getElem?_getD]
  cases h : ((List.range k).map fun j => word_at mem ((esp + (j + 1) * 4) % WORD))[j]? with
  | none => simp [WORD]
  | some w =>
    simp only [Option.getD_some]
    have hm := List.getElem?_mem h
    obtain ⟨i, _, rfl⟩ := List.mem_map.mp hm
    exact word_at_lt _ _

/-- The validations of a case hand back the argument words of that case, and
the pointer argument of a string or buffer call has passed `valid_ptr`. -/
theorem checks_for_checks (E : Env) (esp n : Nat) (s : State) :
    checks_at (checks_for E esp n) s (fun args =>
      args = slot_words s.mem esp (arity n)
      ∧ (n = SYS_READ ∨ n = SYS_WRITE → valid_addr E (args.getD 1 0) = true)) := by
  have simple : ∀ k, arity n = k → ¬ (n = SYS_READ ∨ n = SYS_WRITE) →
      checks_at (parse_args E esp k) s (fun args =>
        args = slot_words s.mem esp (arity n)
        ∧ (n = SYS_READ ∨ n = SYS_WRITE → valid_addr E (args.getD 1 0) = true)) := by
    intro k hk hrw
    refine checks_at_mono (parse_args_checks E esp k s) ?_
    intro args h
    exact ⟨by rw [h, hk], fun h2 => absurd h2 hrw⟩
  have str : ∀ k, arity n = k → ¬ (n = SYS_READ ∨ n = SYS_WRITE) →
      checks_at (do
        let args ← parse_args E esp k
        valid_ptr E (args.getD 0 0)
        valid_string E (args.getD 0 0)
        pure args) s (fun args =>
        args = slot_words s.mem esp (arity n)
        ∧ (n = SYS_READ ∨ n = SYS_WRITE → valid_addr E (args.getD 1 0) = true)) := by
    intro k hk hrw
    refine checks_at_bind (parse_args_checks E esp k s) ?_
    intro args e0 hargs _
    refine checks_at_bind (valid_ptr_checks E _ _) ?_
    intro _ e1 _ _
    refine checks_at_bind (valid_string_checks E _ _ (by rw [hargs]; exact slot_words_getD_lt _ _ _ _)) ?_
    intro _ e2 _ _
    exact checks_at_pure _ _ ⟨by rw [hargs, hk], fun h2 => absurd h2 hrw⟩
  have buf : ∀ k, arity n = k → 
      checks_at (do
        let args ← parse_args E esp k
        valid_ptr E (args.getD 1 0)
        valid_buf E (args.getD 1 0) (args.getD 2 0)
        pure args) s (fun args =>
        args = slot_words s.mem esp (arity n)
        ∧ (n = SYS_READ ∨ n = SYS_WRITE → valid_addr E (args.getD 1 0) = true)) := by
    intro k hk
    refine checks_at_bind (parse_args_checks E esp k s) ?_
    intro args e0 hargs _
    refine checks_at_bind (valid_ptr_checks E _ _) ?_
    intro _ e1 hv _
    refine checks_at_bind (valid_buf_from_checks E _ _ 0 _) ?_
    intro _ e2 _ _
    exact checks_at_pure _ _ ⟨by rw [hargs, hk], fun _ => hv⟩
  unfold checks_for
  by_cases h0 : n = SYS_HALT
  · rw [if_pos h0]
    exact checks_at_pure _ _ ⟨by subst h0; rfl, fun h => absurd h (by subst h0; decide)⟩
  rw [if_neg h0]
  by_cases h1 : n = SYS_EXIT
  · rw [if_pos h1]
    exact h1 ▸ simple 1 (by subst h1; rfl) (by subst h1; decide)
  rw [if_neg h1]
  by_cases h2 : n = SYS_EXEC
  · rw [if_pos h2]
    exact h2 ▸ str 1 (by subst h2; rfl) (by subst h2; decide)
  rw [if_neg h2]
  by_cases h3 : n = SYS_WAIT
  · rw [if_pos h3]
    exact h3 ▸ simple 1 (by subst h3; rfl) (by subst h3; decide)
  rw [if_neg h3]
  by_cases h4 : n = SYS_CREATE
  · rw [if_pos h4]
    subst h4
    refine checks_at_bind (parse_args_checks E esp 2 s) ?_
    intro args e0 hargs _
    refine checks_at_bind (valid_ptr_checks E _ _) ?_
    intro _ e1 _ _
    refine checks_at_bind (valid_buf_from_checks E _ _ 0 _) ?_
    intro _ e2 _ _
    refine checks_at_bind (valid_string_checks E _ _ (by rw [hargs]; exact slot_words_getD_lt _ _ _ _)) ?_
    intro _ e3 _ _
    exact checks_at_pure _ _ ⟨hargs, fun h => absurd h (by decide)⟩
  rw [if_neg h4]
  by_cases h5 : n = SYS_REMOVE
  · rw [if_pos h5]
    exact h5 ▸ str 1 (by subst h5; rfl) (by subst h5; decide)
  rw [if_neg h5]
  by_cases h6 : n = SYS_OPEN
  · rw [if_pos h6]
    exact h6 ▸ str 1 (by subst h6; rfl) (by subst h6; decide)
  rw [if_neg h6]
  by_cases h7 : n = SYS_FILESIZE
  · rw [if_pos h7]
    exact h7 ▸ simple 1 (by subst h7; rfl) (by subst h7; decide)
  rw [if_neg h7]
  by_cases h8 : n = SYS_READ
  · rw [if_pos h8]
    exact h8 ▸ buf 3 (by subst h8; rfl)
  rw [if_neg h8]
  by_cases h9 : n = SYS_WRITE
  · rw [if_pos h9]
    exact h9 ▸ buf 3 (by subst h9; rfl)
  rw [if_neg h9]
  by_cases h10 : n = SYS_SEEK
  · rw [if_pos h10]
    exact h10 ▸ simple 2 (by subst h10; rfl) (by subst h10; decide)
  rw [if_neg h10]
  by_cases h11 : n = SYS_TELL
  · rw [if_pos h11]
    exact h11 ▸ simple 1 (by subst h11; rfl) (by subst h11; decide)
  rw [if_neg h11]
  by_cases h12 : n = SYS_CLOSE
  · rw [if_pos h12]
    exact h12 ▸ simple 1 (by subst h12; rfl) (by subst h12; decide)
  rw [if_neg h12]
  refine checks_at_pure _ _ ⟨?_, fun h => absurd h (by simp [h8, h9])⟩
  have : arity n = 0 := by
    unfold arity
    simp only [SYS_HALT, SYS_EXIT, SYS_EXEC, SYS_WAIT, SYS_CREATE, SYS_REMOVE, SYS_OPEN,
      SYS_FILESIZE, SYS_READ, SYS_WRITE, SYS_SEEK, SYS_TELL, SYS_CLOSE] at *
    simp only [h0, h4, h10, h8, h9, or_self, if_false]
    rw [if_neg (by omega)]
  rw [this]
  rfl

/-- What the validations of a trap establish when they all pass. -/
theorem trap_checks_checks (E : Env) (esp : Nat) (s : State) :
    checks_at (trap_checks E esp) s (fun na =>
      valid_addr E esp = true ∧ na.1 = word_at s.mem esp
      ∧ na.2 = slot_words s.mem esp (arity na.1)
      ∧ (na.1 = SYS_READ ∨ na.1 = SYS_WRITE → valid_addr E (na.2.getD 1 0) = true)) := by
  unfold trap_checks
  refine checks_at_bind (valid_ptr_checks E esp s) ?_
  intro _ e0 hv _
  refine checks_at_bind (deref_u32_checks _ _) ?_
  intro n e1 hn _
  refine checks_at_bind (checks_for_checks E esp n _) ?_
  intro args e2 hargs _
  exact checks_at_pure _ _ ⟨hv, hn, hargs.1, hargs.2⟩
theorem exit_eax {α : Type} (status : Int) (s : State) :
    (exit status s : Outcome α).state.eax = s.eax := by
  unfold exit
  simp only [Outcome.state]
  rw [exit_close_files_eq _ _ rfl, exit_free_children_eq _ _ rfl]
  cases hpa : s.parent_alive <;> cases hpw : s.parent_wait <;>
    simp [State.set_childlist_eq, State.set_fd_entries_eq, State.push_eq, State.push_all_eq,
      State.set_parent_childlist_eq, hpw]

/-- What is known of a run that ended in `exit (-1)` after checks and reads only. -/
theorem rejected_facts {α : Type} (s : State) (evs : List Event) :
    (exit (-1) (s.push_all evs) : Outcome α).stopped = some (Stop.exit (-1))
    ∧ (exit (-1) (s.push_all evs) : Outcome α).state.trace
        = s.trace ++ evs ++ exit_events (-1) s
    ∧ (exit (-1) (s.push_all evs) : Outcome α).state.eax = s.eax := by
  refine ⟨rfl, ?_, ?_⟩
  · rw [exit_trace]
    rfl
  · rw [exit_eax]
    rfl

theorem syscall_handler_apply (E : Env) (esp : Nat) (s : State) :
    syscall_handler E esp s = (trap_checks E esp s).and_then
      fun na => call_for E na.1 na.2 >>= fun _ => emit Event.thread_yield := by
  rw [syscall_handler_eq]
  rfl

theorem Outcome.eq_ret_of_value {α : Type} {o : Outcome α} {v : α} (h : o.value = some v) :
    o = Outcome.ret v o.state := by
  cases o with
  | ret a s1 => simp only [Outcome.value, Option.some.injEq] at h; rw [h]; rfl
  | stop r s1 => simp [Outcome.value] at h

theorem Outcome.stopped_of_value {α : Type} {o : Outcome α} {v : α} (h : o.value = some v) :
    o.stopped = none := by
  rw [Outcome.eq_ret_of_value h]
  rfl

/-- C15: if any validation of a trap fails (the check of `esp`, of an
argument slot, of a string argument of `exec`, `create`, `remove` or `open`,
or of a buffer argument of `read` or `write`), the process ends through
`exit (-1)`, entered from a state that differs from the one at the trap only
by checks and reads of user memory.  So no operation handler ran: the trace
holds no collaborator call before the teardown of `exit`, and `f->eax` keeps
its value. -/
theorem failed_validation_ends_process (E : Env) (esp : Nat) (s : State)
    (hfail : (trap_checks E esp s).stopped ≠ none) :
    (syscall_handler E esp s).stopped = some (Stop.exit (-1))
    ∧ (syscall_handler E esp s).state.eax = s.eax
    ∧ ∃ evs, (∀ e ∈ evs, probe e)
        ∧ syscall_handler E esp s = exit (-1) (s.push_all evs)
        ∧ (syscall_handler E esp s).state.trace = s.trace ++ evs ++ exit_events (-1) s := by
  obtain ⟨evs, hp, h⟩ := trap_checks_checks E esp s
  rcases h with ⟨na, _, hr⟩ | h
  · rw [hr] at hfail
    exact absurd rfl hfail
  · have e : syscall_handler E esp s = exit (-1) (s.push_all evs) := by
      rw [syscall_handler_apply, h, exit_and_then]
    obtain ⟨f1, f2, f3⟩ := rejected_facts (α := Unit) s evs
    rw [e]
    exact ⟨f1, f3, evs, hp, rfl, f2⟩

/-- C15, at a concrete trap: the stack pointer 0 fails the validator. -/
theorem failed_validation_ends_process_witness :
    (syscall_handler sample_env 0 sample_state).stopped = some (Stop.exit (-1))
    ∧ (syscall_handler sample_env 0 sample_state).state.eax = sample_state.eax :=
  have h := failed_validation_ends_process sample_env 0 sample_state (by decide)
  ⟨h.1, h.2.1⟩

theorem deref_u32_eq (a : Nat) (s : State) :
    deref_u32 a s = Outcome.ret (word_at s.mem a)
      (s.push_all [Event.read a, Event.read ((a + 1) % WORD), Event.read ((a + 2) % WORD),
        Event.read ((a + 3) % WORD)]) := by
  cases s
  simp [deref_u32, deref_u8, word_at, State.push_eq, State.push_all_eq]

theorem dispatch_unknown (E : Env) (esp n : Nat)
    (hn : ∀ k ∈ [SYS_HALT, SYS_EXIT, SYS_EXEC, SYS_WAIT, SYS_CREATE, SYS_REMOVE, SYS_OPEN,
      SYS_FILESIZE, SYS_READ, SYS_WRITE, SYS_SEEK, SYS_TELL, SYS_CLOSE], n ≠ k) :
    dispatch E esp n = exit (-1) := by
  unfold dispatch
  rw [if_neg (hn _ (by simp)), if_neg (hn _ (by simp)), if_neg (hn _ (by simp)),
    if_neg (hn _ (by simp)), if_neg (hn _ (by simp)), if_neg (hn _ (by simp)),
    if_neg (hn _ (by simp)), if_neg (hn _ (by simp)), if_neg (hn _ (by simp)),
    if_neg (hn _ (by simp)), if_neg (hn _ (by simp)), if_neg (hn _ (by simp)),
    if_neg (hn _ (by simp))]

/-- C14: when the stack pointer passes `valid_ptr` and the word at it is none
of the 13 supported call numbers, the process ends through `exit (-1)`.
Before that the dispatcher only checked `esp` and read the four bytes of the
call-number word: it read no argument word and called no operation handler,
and `f->eax` keeps its value. -/
theorem unknown_call_number_ends_process (E : Env) (esp : Nat) (s : State)
    (hv : valid_addr E esp = true)
    (hn : ∀ k ∈ [SYS_HALT, SYS_EXIT, SYS_EXEC, SYS_WAIT, SYS_CREATE, SYS_REMOVE, SYS_OPEN,
      SYS_FILESIZE, SYS_READ, SYS_WRITE, SYS_SEEK, SYS_TELL, SYS_CLOSE],
      word_at s.mem esp ≠ k) :
    (syscall_handler E esp s).stopped = some (Stop.exit (-1))
    ∧ (syscall_handler E esp s).state.trace
        = s.trace ++ [Event.checked esp, Event.read esp, Event.read ((esp + 1) % WORD),
            Event.read ((esp + 2) % WORD), Event.read ((esp + 3) % WORD)]
          ++ exit_events (-1) s
    ∧ (syscall_handler E esp s).state.eax = s.eax := by
  have e : syscall_handler E esp s = exit (-1)
      (s.push_all [Event.checked esp, Event.read esp, Event.read ((esp + 1) % WORD),
        Event.read ((esp + 2) % WORD), Event.read ((esp + 3) % WORD)]) := by
    unfold syscall_handler
    simp only [bind_apply, valid_ptr_apply, hv, if_true, and_then_ret, deref_u32_eq]
    rw [dispatch_unknown E esp _ (by simpa [State.push_eq] using hn)]
    simp only [exit_and_then, State.push_eq_push_all, State.push_all_push_all]
    rfl
  obtain ⟨f1, f2, f3⟩ := rejected_facts (α := Unit) s
    [Event.checked esp, Event.read esp, Event.read ((esp + 1) % WORD),
      Event.read ((esp + 2) % WORD), Event.read ((esp + 3) % WORD)]
  rw [e]
  exact ⟨f1, f2, f3⟩

/-- C14, at a concrete trap whose call-number word is 13. -/
theorem unknown_call_number_ends_process_witness :
    (syscall_handler sample_env 0x08049F00 (sample_state.set_mem unknown_trap_mem)).stopped
      = some (Stop.exit (-1)) :=
  (unknown_call_number_ends_process sample_env 0x08049F00
    (sample_state.set_mem unknown_trap_mem) (by decide) (by decide)).1

/-- C20: in a `read` or `write` trap whose buffer-pointer word (at `esp + 8`)
fails the validator, the process ends through `exit (-1)` whatever the handle
and the length are, length 0 included: the handler is not reached, so neither
0 nor `-1` is returned, and `f->eax` keeps its value. -/
theorem bad_buffer_pointer_ends_process (E : Env) (esp : Nat) (s : State)
    (hn : word_at s.mem esp = SYS_READ ∨ word_at s.mem esp = SYS_WRITE)
    (hbuf : valid_addr E (word_at s.mem ((esp + 8) % WORD)) = false) :
    (syscall_handler E esp s).stopped = some (Stop.exit (-1))
    ∧ (syscall_handler E esp s).state.eax = s.eax
    ∧ ∃ evs, (∀ e ∈ evs, probe e)
        ∧ (syscall_handler E esp s).state.trace = s.trace ++ evs ++ exit_events (-1) s := by
  obtain ⟨evs, hp, h⟩ := trap_checks_checks E esp s
  rcases h with ⟨na, ⟨_, h1, h2, h3⟩, _⟩ | h
  · exfalso
    rw [h1] at h2 h3
    have hv := h3 hn
    have ha : arity (word_at s.mem esp) = 3 := by
      rcases hn with hn | hn <;> rw [hn] <;> rfl
    rw [h2, ha] at hv
    have hw : (slot_words s.mem esp 3).getD 1 0 = word_at s.mem ((esp + 8) % WORD) := by
      simp [slot_words, List.range_succ]
    rw [hw, hbuf] at hv
    exact absurd hv (by simp)
  · have e : syscall_handler E esp s = exit (-1) (s.push_all evs) := by
      rw [syscall_handler_apply, h, exit_and_then]
    obtain ⟨f1, f2, f3⟩ := rejected_facts (α := Unit) s evs
    rw [e]
    exact ⟨f1, f3, evs, hp, f2⟩

/-- C20, at a concrete trap: `write (1, 0, 0)`, an empty range at the null
pointer, on the standard output handle. -/
theorem bad_buffer_pointer_ends_process_witness :
    (syscall_handler sample_env 0x08049F00 (sample_state.set_mem write_trap_mem)).stopped
      = some (Stop.exit (-1)) :=
  (bad_buffer_pointer_ends_process sample_env 0x08049F00
    (sample_state.set_mem write_trap_mem) (by decide) (by decide)).1
theorem to_unsigned_lt (i : Int) : to_unsigned i < WORD := by
  unfold to_unsigned WORD
  omega

theorem of_bool_lt (b : Bool) : of_bool b < WORD := by
  cases b <;> decide

theorem tell_value_lt (E : Env) (fd : Int) (s : State) (v : Nat)
    (h : (tell E fd s).value = some v) : v < WORD := by
  unfold tell at h
  simp only [bind_apply, lock_acquire, and_then_ret] at h
  rcases file_ptr_cases fd (s.set_mutex true) with h1 | ⟨f, h1⟩ | h1 <;> rw [h1] at h <;>
    simp [lock_release, emit, Outcome.value] at h
  · rw [← h]; exact to_unsigned_lt _
  · rw [← h]; exact to_unsigned_lt _

theorem seek_eax (fd : Int) (pos : Nat) (s : State) : (seek fd pos s).state.eax = s.eax := by
  unfold seek
  simp only [bind_apply, lock_acquire, and_then_ret]
  rcases file_ptr_cases fd (s.set_mutex true) with h | ⟨f, h⟩ | h <;> rw [h] <;>
    simp [lock_release, emit, Outcome.state, State.push_eq, State.set_mutex_eq]

theorem and_then_yield_eax (o : Outcome Unit) :
    (o.and_then fun _ => emit Event.thread_yield).state.eax = o.state.eax := by
  cases o <;> rfl

/-- After a handler that returns `v`, `f->eax` holds the word `w v`. -/
theorem eax_after_call {α : Type} (H : K α) (w : α → Nat) (s1 : State) (v : α)
    (hv : (H s1).value = some v) (hw : w v < WORD) :
    (((H >>= fun r => set_eax (w r)) >>= fun _ => emit Event.thread_yield) s1).state.eax
      = w v := by
  simp only [bind_apply]
  rw [Outcome.eq_ret_of_value hv]
  simp [set_eax, emit, Outcome.state, State.set_eax_eq, State.push_eq, Nat.mod_eq_of_lt hw]

/-- C18: a trap whose call number is `halt`, `exit`, `seek` or `close` leaves
`f->eax` as it was.  For `exec`, `wait`, `create`, `remove`, `open`,
`filesize`, `read`, `write` and `tell`, when all validations pass, the
arguments are the words at `esp + 4`, `esp + 8`, `esp + 12` in that order, and
when the handler of the call, applied to them, returns `v`, `f->eax` holds `v`
afterwards (as a 32-bit word; a `bool` as 0 or 1). -/
theorem eax_holds_handler_result (E : Env) (esp : Nat) (s : State) :
    ((word_at s.mem esp = SYS_HALT ∨ word_at s.mem esp = SYS_EXIT
        ∨ word_at s.mem esp = SYS_SEEK ∨ word_at s.mem esp = SYS_CLOSE) →
      (syscall_handler E esp s).state.eax = s.eax)
    ∧ ∀ n args, (trap_checks E esp s).value = some (n, args) →
      n = word_at s.mem esp ∧ args = slot_words s.mem esp (arity n)
      ∧ (n = SYS_EXEC → ∀ v,
          (exec E (args.getD 0 0) (trap_checks E esp s).state).value = some v →
          (syscall_handler E esp s).state.eax = to_unsigned v)
      ∧ (n = SYS_WAIT → ∀ v,
          (wait E (to_int (args.getD 0 0)) (trap_checks E esp s).state).value = some v →
          (syscall_handler E esp s).state.eax = to_unsigned v)
      ∧ (n = SYS_CREATE → ∀ v,
          (create E (args.getD 0 0) (args.getD 1 0) (trap_checks E esp s).state).value = some v →
          (syscall_handler E esp s).state.eax = of_bool v)
      ∧ (n = SYS_REMOVE → ∀ v,
          (remove E (args.getD 0 0) (trap_checks E esp s).state).value = some v →
          (syscall_handler E esp s).state.eax = of_bool v)
      ∧ (n = SYS_OPEN → ∀ v,
          (sys_open E (args.getD 0 0) (trap_checks E esp s).state).value = some v →
          (syscall_handler E esp s).state.eax = to_unsigned v)
      ∧ (n = SYS_FILESIZE → ∀ v,
          (filesize E (to_int (args.getD 0 0)) (trap_checks E esp s).state).value = some v →
          (syscall_handler E esp s).state.eax = to_unsigned v)
      ∧ (n = SYS_READ → ∀ v,
          (read E (to_int (args.getD 0 0)) (args.getD 1 0) (args.getD 2 0)
            (trap_checks E esp s).state).value = some v →
          (syscall_handler E esp s).state.eax = to_unsigned v)
      ∧ (n = SYS_WRITE → ∀ v,
          (write E (to_int (args.getD 0 0)) (args.getD 1 0) (args.getD 2 0)
            (trap_checks E esp s).state).value = some v →
          (syscall_handler E esp s).state.eax = to_unsigned v)
      ∧ (n = SYS_TELL → ∀ v,
          (tell E (to_int (args.getD 0 0)) (trap_checks E esp s).state).value = some v →
          (syscall_handler E esp s).state.eax = v) := by
  constructor
  · intro hn
    obtain ⟨evs, _, h⟩ := trap_checks_checks E esp s
    rcases h with ⟨na, ⟨_, h1, _⟩, hr⟩ | h
    · rw [syscall_handler_apply, hr, and_then_ret, bind_apply, and_then_yield_eax]
      rw [← h1] at hn
      rcases hn with hn | hn | hn | hn <;> rw [hn]
      · rfl
      · exact exit_eax _ _
      · exact seek_eax _ _ _
      · show (close _ _).state.eax = s.eax
        rw [close_eq]
        rfl
    · rw [syscall_handler_apply, h, exit_and_then]
      exact (rejected_facts s evs).2.2
  · intro n args hval
    have hret := Outcome.eq_ret_of_value hval
    have hrun : syscall_handler E esp s
        = (call_for E n args >>= fun _ => emit Event.thread_yield) (trap_checks E esp s).state := by
      rw [syscall_handler_apply]
      conv => lhs; rw [hret]
      rfl
    obtain ⟨evs, _, h⟩ := trap_checks_checks E esp s
    rcases h with ⟨na, ⟨_, h1, h2, _⟩, hr⟩ | h
    · have hna : na = (n, args) := by
        rw [hr] at hval
        simpa [Outcome.value] using hval
      rw [hna] at h1 h2
      refine ⟨h1, h2, ?_, ?_, ?_, ?_, ?_, ?_, ?_, ?_, ?_⟩ <;> intro hn v hv <;> subst hn <;>
        rw [hrun]
      · exact eax_after_call (exec E (args.getD 0 0)) to_unsigned _ v hv (to_unsigned_lt _)
      · exact eax_after_call (wait E _) to_unsigned _ v hv (to_unsigned_lt _)
      · exact eax_after_call (create E _ _) of_bool _ v hv (of_bool_lt _)
      · exact eax_after_call (remove E _) of_bool _ v hv (of_bool_lt _)
      · exact eax_after_call (sys_open E _) to_unsigned _ v hv (to_unsigned_lt _)
      · exact eax_after_call (filesize E _) to_unsigned _ v hv (to_unsigned_lt _)
      · exact eax_after_call (read E _ _ _) to_unsigned _ v hv (to_unsigned_lt _)
      · exact eax_after_call (write E _ _ _) to_unsigned _ v hv (to_unsigned_lt _)
      · exact eax_after_call (tell E _) (fun r => r) _ v hv (tell_value_lt _ _ _ _ hv)
    · rw [h] at hval
      exact absurd hval (by simp [exit, Outcome.value])

/-- C18, at a concrete trap: `filesize (2)` returns 10 and `f->eax` holds 10. -/
theorem eax_holds_handler_result_witness :
    (syscall_handler sample_env 0x08049F00 (sample_state.set_mem filesize_trap_mem)).state.eax
      = to_unsigned 10 :=
  ((eax_holds_handler_result sample_env 0x08049F00
    (sample_state.set_mem filesize_trap_mem)).2 7 [2] (by decide)).2.2.2.2.2.2.2.1 rfl 10
    (by decide)

end Syscall
